import Mathlib

/-!
Shallow embedding of `src/helpers/multiaspect/sampler.py` (class
`MultiAspectSampler`) from the SimpleTuner repository.

Conventions used throughout:
* Item identifiers (image paths) and bucket keys are `String`s, as in the
  source (bucket keys are stringified aspect-ratio values such as "1.78").
* The Bucket Store's `aspect_ratio_bucket_indices` Python dict is an ordered
  association list with duplicate-free keys; Python dicts preserve insertion
  order and cannot hold duplicate keys.
* Randomness (`random.choice`, `random.sample`) is modelled by an explicit
  schedule `List Nat` consumed left to right; each choice picks index
  `r % length`, so every concrete behaviour of the Python code corresponds to
  some schedule and vice versa.  Distributional statements are modelled
  separately as rational-valued probability mass functions.
* Python exceptions that would propagate out of the sampler (IndexError,
  KeyError, ValueError, the explicit `raise Exception` in `_reset_buckets`)
  are modelled with `Except`; the `emptyDataset` error carries the sampler
  state at the moment of the raise.
* Machine floats appear only in `round(image.width / image.height, 2)`; this
  is modelled exactly as an integer number of hundredths with
  round-half-to-even (Python's rounding mode), and Python's `str` on the
  rounded value is modelled by a decimal renderer of those hundredths (only
  equality of the resulting keys is ever used).
-/

namespace SimpleTuner

abbrev Img := String
abbrev Key := String

/-- The Bucket Store partition `bucket_manager.aspect_ratio_bucket_indices`:
ordered association list from bucket key to the items filed under it. -/
abbrev Store := List (Key × List Img)

/-- The key set of the store, in order (`aspect_ratio_bucket_indices.keys()`). -/
def storeKeys (st : Store) : List Key := st.map Prod.fst

/-- Dictionary lookup `aspect_ratio_bucket_indices[bucket]`; `none` models a
Python `KeyError`. -/
def storeLookup (st : Store) (b : Key) : Option (List Img) :=
  match st with
  | [] => none
  | (k, imgs) :: rest => if k = b then some imgs else storeLookup rest b

/-- Modelled from the spec: `BucketManager.remove_image`
(helpers/multiaspect/bucket.py, which is not under src/).  Spec section 4.3
step 1 and section 6: remove the identifier from the Bucket Store under the
given bucket. -/
def removeImage (st : Store) (img : Img) (b : Key) : Store :=
  st.map (fun kv => if kv.1 = b then (kv.1, kv.2.erase img) else kv)

/-- Modelled from the spec: `BucketManager.handle_small_image`
(helpers/multiaspect/bucket.py, which is not under src/).  Spec section 4.3
step 3: evict the item from the index under the bucket; whether the backing
resource is also deleted (`delete_unwanted_images`) is an effect outside the
store. -/
def handleSmallImage (st : Store) (img : Img) (b : Key) : Store :=
  st.map (fun kv => if kv.1 = b then (kv.1, kv.2.erase img) else kv)

/-- Modelled from the spec: `BucketManager.handle_incorrect_bucket`
(helpers/multiaspect/bucket.py, which is not under src/).  Spec section 4.3
step 4: re-file the item under the correct bucket key in the Bucket Store. -/
def handleIncorrectBucket (st : Store) (img : Img) (claimed actual : Key) : Store :=
  let st' := removeImage st img claimed
  if (storeKeys st').contains actual then
    st'.map (fun kv => if kv.1 = actual then (kv.1, kv.2 ++ [img]) else kv)
  else st' ++ [(actual, [img])]

/-- Result of decoding an image: dimensions as reported by `Image.open`, and
whether `exif_transpose` swaps the two axes (EXIF orientations either keep or
swap the width/height of the decoded image). -/
structure ImgData where
  width : Nat
  height : Nat
  exifSwap : Bool
deriving Repr, DecidableEq

/-- Width after `exif_transpose`. -/
def twidth (d : ImgData) : Nat := if d.exifSwap then d.height else d.width

/-- Height after `exif_transpose`. -/
def theight (d : ImgData) : Nat := if d.exifSwap then d.width else d.height

/-- The external collaborators read by validation: `data_backend.exists` and
the composition `data_backend.read` + `Image.open` (`none` models any
exception raised while reading or decoding). -/
structure Env where
  pathExists : Img → Bool
  decode : Img → Option ImgData

/-- Immutable sampler configuration from `__init__`. -/
structure Config where
  batch_size : Nat
  delete_unwanted_images : Bool
  minimum_image_size : Option Nat
deriving Repr, DecidableEq

/-- The sampler's mutable state together with the Bucket Store it mutates. -/
structure SamplerState where
  aspect_ratio_bucket_indices : Store
  buckets : List Key
  exhausted_buckets : List Key
  seen_images : List (Img × Key)
  current_bucket : Option Nat
  current_epoch : Nat
deriving Repr, DecidableEq

/-- The keys of the `seen_images` dict. -/
def seenKeys (s : SamplerState) : List Img := s.seen_images.map Prod.fst

/-- Modelled from the spec: `BucketManager.is_seen`
(helpers/multiaspect/bucket.py, which is not under src/).  Spec section 4.2:
the unseen items of a bucket are its Bucket Store membership minus the
`seen_images` keys, so `is_seen` holds exactly for the keys of
`seen_images`. -/
def isSeen (s : SamplerState) (img : Img) : Bool := (seenKeys s).contains img

/-- Python dict assignment `self.seen_images[path] = bucket`: update in place
if the key exists, else append (insertion order preserved). -/
def assocSet (m : List (Img × Key)) (k : Img) (v : Key) : List (Img × Key) :=
  if (m.map Prod.fst).contains k then
    m.map (fun kv => if kv.1 = k then (k, v) else kv)
  else m ++ [(k, v)]

/-- Python's `round(w / h, 2)` as an exact number of hundredths, with
round-half-to-even (Python's rounding mode): the nearest integer to
`100 * w / h`, ties to even.  Exact rational arithmetic stands in for IEEE
floats here; the spec's design notes call for implementing the documented
2-digit rounding exactly. -/
def roundHundredths (w h : Nat) : Nat :=
  let a := 100 * w
  let f := a / h
  let rm := a % h
  if 2 * rm < h then f
  else if h < 2 * rm then f + 1
  else if f % 2 = 0 then f else f + 1

/-- Python's `str` applied to the rounded float, rendering `n` hundredths the
way `str` renders such a float: at least one fractional digit, trailing zero
trimmed ("1.0", "1.5", "1.78", "1.05"). -/
def ratioKey (n : Nat) : String :=
  let i := n / 100
  let f := n % 100
  if f = 0 then toString i ++ ".0"
  else if f % 10 = 0 then toString i ++ "." ++ toString (f / 10)
  else if f < 10 then toString i ++ ".0" ++ toString f
  else toString i ++ "." ++ toString f

/-- Classification of one candidate by `_process_single_image`:
which of the validation branches fires. -/
inductive Outcome where
  | valid
  | removeMissing
  | errorCaught
  | smallImage
  | wrongBucket (actual : Key)
deriving Repr, DecidableEq

/-- The branch structure of `_process_single_image` (sampler.py lines
239-277): existence check, then inside a bare `try`: decode, minimum-size
comparison, `exif_transpose`, aspect-ratio comparison.  A `None`
`minimum_image_size` makes `image.width < None` raise `TypeError`, and a zero
post-transpose height makes the division raise `ZeroDivisionError`; both are
swallowed by the bare `except`, which is `errorCaught`. -/
def classifyImage (cfg : Config) (env : Env) (image_path : Img) (bucket : Key) : Outcome :=
  if ¬ env.pathExists image_path then .removeMissing
  else
    match env.decode image_path with
    | none => .errorCaught
    | some d =>
      match cfg.minimum_image_size with
      | none => .errorCaught
      | some m =>
        if d.width < m ∨ d.height < m then .smallImage
        else if theight d = 0 then .errorCaught
        else
          let actual := ratioKey (roundHundredths (twidth d) (theight d))
          if actual ≠ bucket then .wrongBucket actual else .valid

/-- Bucket Store mutation performed by each branch of `_process_single_image`:
`remove_image` when the path is missing, `handle_small_image` on an
undersized image, `handle_incorrect_bucket` on an aspect-ratio mismatch,
nothing otherwise. -/
def applyOutcome (st : Store) (image_path : Img) (bucket : Key) : Outcome → Store
  | .removeMissing => removeImage st image_path bucket
  | .smallImage => handleSmallImage st image_path bucket
  | .wrongBucket actual => handleIncorrectBucket st image_path bucket actual
  | .valid => st
  | .errorCaught => st

/-- `_process_single_image`: returns the path when valid (else `none`) and
the mutated store. -/
def process_single_image (cfg : Config) (env : Env) (st : Store)
    (image_path : Img) (bucket : Key) : Option Img × Store :=
  let o := classifyImage cfg env image_path bucket
  ((if o = .valid then some image_path else none), applyOutcome st image_path bucket o)

/-- `_validate_and_yield_images_from_samples`: fold over the drawn samples,
validating each, collecting the valid paths in order, and (in training mode)
recording each valid path in `seen_images` under the drawn bucket. -/
def validate_and_yield_images_from_samples (cfg : Config) (env : Env)
    (training : Bool) (s : SamplerState) (samples : List Img) (bucket : Key)
    (to_yield : List Img) : List Img × SamplerState :=
  match samples with
  | [] => (to_yield, s)
  | image_path :: rest =>
    let (res, st') := process_single_image cfg env s.aspect_ratio_bucket_indices image_path bucket
    let s' := { s with aspect_ratio_bucket_indices := st' }
    match res with
    | some q =>
      let s'' := if training then { s' with seen_images := assocSet s'.seen_images q bucket } else s'
      validate_and_yield_images_from_samples cfg env training s'' rest bucket (to_yield ++ [q])
    | none => validate_and_yield_images_from_samples cfg env training s' rest bucket to_yield

/-- `load_buckets`: the current key list of the live Bucket Store. -/
def load_buckets (s : SamplerState) : List Key := storeKeys s.aspect_ratio_bucket_indices

/-- `_get_unseen_images()` with no bucket argument (the `if bucket:`
truthiness test makes a falsy argument take this branch too): unseen items
of every bucket. -/
def get_unseen_images_all (s : SamplerState) : List Img :=
  (s.aspect_ratio_bucket_indices.map (fun kv => kv.2.filter (fun i => !(isSeen s i)))).flatten

/-- `_get_unseen_images(bucket)` for a specific bucket key (the empty string
is falsy in Python and selects the all-buckets branch); `none` models a
`KeyError` on a key absent from the store. -/
def get_unseen_images (s : SamplerState) (bucket : Key) : Option (List Img) :=
  if bucket = "" then some (get_unseen_images_all s)
  else
    (storeLookup s.aspect_ratio_bucket_indices bucket).map
      (fun imgs => imgs.filter (fun i => !(isSeen s i)))

/-- `random.choice`: any element is reachable via `r % length`; `none` models
the `IndexError` raised on an empty sequence.  Each call consumes one value
of the randomness schedule (the head, the rest being passed on). -/
def randChoice {α : Type} (l : List α) (r : Nat) : Option α := l.get? (r % l.length)

/-- `random.sample(pool, k)` with position choices taken from the schedule:
pick an index, remove that position, recurse.  Exactly the
without-replacement draws of `k` positions are expressible. -/
def sampleDraw : List Img → Nat → List Nat → List Img × List Nat
  | _, 0, σ => ([], σ)
  | pool, k + 1, σ =>
    match pool.get? (σ.headD 0 % pool.length) with
    | none => ([], σ.tail)
    | some x =>
      (x :: (sampleDraw (pool.eraseIdx (σ.headD 0 % pool.length)) k σ.tail).1,
        (sampleDraw (pool.eraseIdx (σ.headD 0 % pool.length)) k σ.tail).2)

/-- `_yield_random_image`: choose a bucket uniformly from `buckets`, then an
item uniformly within that bucket.  `none` models the `IndexError` or
`KeyError` that an empty `buckets` list or a stale key would raise. -/
def yield_random_image (s : SamplerState) (σ : List Nat) : Option Img × List Nat :=
  match randChoice s.buckets (σ.headD 0) with
  | none => (none, σ.tail)
  | some bucket =>
    match storeLookup s.aspect_ratio_bucket_indices bucket with
    | none => (none, σ.tail)
    | some imgs => (randChoice imgs (σ.tail.headD 0), σ.tail.tail)

/-- `_bucket_name_to_id`: index of a bucket name in `buckets`; `none` models
the `ValueError` of `list.index` on a missing name. -/
def bucket_name_to_id (s : SamplerState) (bucket_name : Key) : Option Nat :=
  s.buckets.findIdx? (fun x => x = bucket_name)

/-- Errors that escape the sampler: the explicit
`raise Exception("No images found in the dataset.")` of `_reset_buckets`
(carrying the state at the moment of the raise), and any propagating
IndexError / KeyError / ValueError / TypeError (also used for schedule-fuel
exhaustion of the loop models). -/
inductive Err where
  | emptyDataset (atState : SamplerState)
  | runtimeError
deriving Repr, DecidableEq

/-- The non-recursive part of `_reset_buckets` (sampler.py lines 118-129):
the empty-universe check, then epoch increment, clearing of
`exhausted_buckets` and `seen_images`, and reload of `buckets` from the live
store.  The trailing `self.change_bucket()` call is applied by the callers
(`resetBucketsF`, `changeBucketF`). -/
def resetCore (s : SamplerState) : Except Err SamplerState :=
  if s.seen_images.length = 0 ∧ (get_unseen_images_all s).length = 0 then
    .error (.emptyDataset s)
  else
    .ok { s with
      current_epoch := s.current_epoch + 1,
      exhausted_buckets := [],
      buckets := load_buckets s,
      seen_images := [] }

/-- The bucket list `_get_next_bucket` filters to:
`[bucket for bucket in self.buckets if bucket not in self.exhausted_buckets]`. -/
def availableBuckets (s : SamplerState) : List Key :=
  s.buckets.filter (fun b => !(s.exhausted_buckets.contains b))

/-- The tail of `_get_next_bucket` + `change_bucket`: choose a bucket at
random from the given candidates and set `current_bucket` to its index in
`buckets`. -/
def pickAndSet (available : List Key) (s : SamplerState) (σ : List Nat) :
    Except Err (SamplerState × List Nat) :=
  match randChoice available (σ.headD 0) with
  | none => .error .runtimeError
  | some next_bucket =>
    match bucket_name_to_id s next_bucket with
    | none => .error .runtimeError
    | some i => .ok ({ s with current_bucket := some i }, σ.tail)

/-- `change_bucket` = `_get_next_bucket` + `_bucket_name_to_id` assignment,
with `_get_next_bucket` inlined: if every bucket is exhausted, run
`_reset_buckets` (whose own trailing `change_bucket()` is the recursive
call), then choose from the reloaded `self.buckets`.  The fuel bounds the
reset recursion; a second nested reset always raises, so any fuel of at
least 1 is exact. -/
def changeBucketF : Nat → SamplerState → List Nat → Except Err (SamplerState × List Nat)
  | 0, s, σ =>
    if (availableBuckets s).isEmpty then .error .runtimeError
    else pickAndSet (availableBuckets s) s σ
  | fuel + 1, s, σ =>
    if (availableBuckets s).isEmpty then
      match resetCore s with
      | .error e => .error e
      | .ok s1 =>
        match changeBucketF fuel s1 σ with
        | .error e => .error e
        | .ok (s2, σ2) => pickAndSet s2.buckets s2 σ2
    else pickAndSet (availableBuckets s) s σ

/-- `_reset_buckets` including its trailing `self.change_bucket()`. -/
def resetBucketsF (fuel : Nat) (s : SamplerState) (σ : List Nat) :
    Except Err (SamplerState × List Nat) :=
  match resetCore s with
  | .error e => .error e
  | .ok s1 => changeBucketF fuel s1 σ

/-- `move_to_exhausted`: append `self.buckets[self.current_bucket]` to
`exhausted_buckets` and remove it (first occurrence, as `list.remove`) from
`buckets`.  Errors model the TypeError / IndexError of indexing with a `None`
or out-of-range `current_bucket`. -/
def move_to_exhausted (s : SamplerState) : Except Err SamplerState :=
  match s.current_bucket with
  | none => .error .runtimeError
  | some i =>
    match s.buckets.get? i with
    | none => .error .runtimeError
    | some bucket =>
      .ok { s with
        exhausted_buckets := s.exhausted_buckets ++ [bucket],
        buckets := s.buckets.erase bucket }

/-- Result of the inner `while len(available_images) >= self.batch_size`
loop of `__iter__`: the emission run flushed by a full batch (if any), the
value the local `available_images` variable holds on exit, the sampler state,
the remaining schedule, the `batch_accumulator`, and whether any draw
happened (which clears `all_buckets_exhausted`). -/
structure InnerOut where
  flushed : Option (List Img)
  availExit : List Img
  state : SamplerState
  sched : List Nat
  acc : List Img
  drew : Bool
deriving Repr, DecidableEq

/-- The inner `while` loop of `__iter__` (sampler.py lines 307-325) for one
bucket: while the bucket's unseen pool can fill a batch, draw `batch_size`
samples, validate them, extend the accumulator; on a full accumulator emit it
(one emission run), call `change_bucket`, clear the accumulator and break;
otherwise recompute the unseen pool and loop.  `fuel` bounds the loop, and
`cbFuel` is the fuel of the `change_bucket` reset recursion. -/
def innerWhile (cfg : Config) (env : Env) (training : Bool) (bucket : Key) :
    Nat → Nat → List Img → SamplerState → List Nat → List Img → Bool →
    Except Err InnerOut
  | 0, _, _, _, _, _, _ => .error .runtimeError
  | fuel + 1, cbFuel, available, s, σ, acc, drew =>
    if cfg.batch_size ≤ available.length then
      let sd := sampleDraw available cfg.batch_size σ
      let vy := validate_and_yield_images_from_samples cfg env training s sd.1 bucket []
      let acc1 := acc ++ vy.1
      if cfg.batch_size ≤ acc1.length then
        match changeBucketF cbFuel vy.2 sd.2 with
        | .error e => .error e
        | .ok p => .ok ⟨some acc1, available, p.1, p.2, [], true⟩
      else
        match get_unseen_images vy.2 bucket with
        | none => .error .runtimeError
        | some avail2 => innerWhile cfg env training bucket fuel cbFuel avail2 vy.2 sd.2 acc1 true
    else
      .ok ⟨none, available, s, σ, acc, drew⟩

/-- Result of the `for idx, bucket in enumerate(self.buckets)` sweep: the
emission runs produced, the `all_buckets_exhausted` flag, and the updated
state, schedule and accumulator. -/
structure LoopOut where
  runs : List (List Img)
  allEx : Bool
  state : SamplerState
  sched : List Nat
  acc : List Img
deriving Repr, DecidableEq

/-- The `for idx, bucket in enumerate(self.buckets)` loop of `__iter__`
(sampler.py lines 305-331).  Python iterates the list object captured at
loop start: `obj` is that object's current contents, `aliased` records
whether `self.buckets` still refers to it (an in-place
`self.buckets.remove` in `move_to_exhausted` is visible to the iteration,
while the rebinding `self.buckets = self.load_buckets()` in `_reset_buckets`
is not).  A reset is detected by the epoch change it makes.  After the inner
while loop, the exhaustion step fires only when the stale
`available_images` is short of a batch and `idx` equals
`len(self.buckets) - 1` read from the live list. -/
def forLoop (cfg : Config) (env : Env) (training : Bool) :
    Nat → Nat → Nat → List Key → Bool → Nat → SamplerState → List Nat →
    List Img → List (List Img) → Bool → Except Err LoopOut
  | 0, _, _, _, _, _, _, _, _, _, _ => .error .runtimeError
  | fuel + 1, innerFuel, cbFuel, obj, aliased, idx, s, σ, acc, runs, allEx =>
    match obj.get? idx with
    | none => .ok ⟨runs, allEx, s, σ, acc⟩
    | some bucket =>
      match get_unseen_images s bucket with
      | none => .error .runtimeError
      | some available =>
        match innerWhile cfg env training bucket innerFuel cbFuel available s σ acc false with
        | .error e => .error e
        | .ok io =>
          let aliased1 := aliased && (io.state.current_epoch = s.current_epoch)
          let obj1 := if aliased1 then io.state.buckets else obj
          let runs1 := runs ++ (match io.flushed with | some r => [r] | none => [])
          let allEx1 := if io.drew then false else allEx
          if io.availExit.length < cfg.batch_size ∧
              (idx : Int) = (io.state.buckets.length : Int) - 1 then
            match move_to_exhausted io.state with
            | .error e => .error e
            | .ok s2 =>
              let obj2 := if aliased1 then s2.buckets else obj1
              match changeBucketF cbFuel s2 io.sched with
              | .error e => .error e
              | .ok p =>
                let aliased3 := aliased1 && (p.1.current_epoch = s2.current_epoch)
                let obj3 := if aliased3 then p.1.buckets else obj2
                forLoop cfg env training fuel innerFuel cbFuel obj3 aliased3 (idx + 1)
                  p.1 p.2 io.acc runs1 allEx1
          else
            forLoop cfg env training fuel innerFuel cbFuel obj1 aliased1 (idx + 1)
              io.state io.sched io.acc runs1 allEx1

/-- Result of one iteration of the outer `while True` of `__iter__`. -/
structure IterOut where
  runs : List (List Img)
  state : SamplerState
  sched : List Nat
  acc : List Img
deriving Repr, DecidableEq

/-- The bucket-logic part of one `while True` iteration of `__iter__`: the
sweep over `self.buckets` followed by `_reset_buckets` when every bucket was
found exhausted. -/
def bucketSweep (cfg : Config) (env : Env) (training : Bool)
    (forFuel innerFuel cbFuel : Nat) (s : SamplerState) (σ : List Nat)
    (acc : List Img) : Except Err IterOut :=
  match forLoop cfg env training forFuel innerFuel cbFuel s.buckets true 0 s σ acc [] true with
  | .error e => .error e
  | .ok lo =>
    if lo.allEx then
      match resetBucketsF cbFuel lo.state lo.sched with
      | .error e => .error e
      | .ok p => .ok ⟨lo.runs, p.1, p.2, lo.acc⟩
    else .ok ⟨lo.runs, lo.state, lo.sched, lo.acc⟩

/-- One iteration of the `while True` body of `__iter__` (sampler.py lines
297-334).  When the Mode Flag reports not training, one random identifier is
yielded on its own; the truthiness test `if early_yield:` means an empty
string falls through to the bucket logic instead.  In training mode the
bucket sweep runs directly. -/
def iterRound (cfg : Config) (env : Env) (training : Bool)
    (forFuel innerFuel cbFuel : Nat) (s : SamplerState) (σ : List Nat)
    (acc : List Img) : Except Err IterOut :=
  if training then
    bucketSweep cfg env training forFuel innerFuel cbFuel s σ acc
  else
    match yield_random_image s σ with
    | (none, _) => .error .runtimeError
    | (some img, σ') =>
      if img = "" then bucketSweep cfg env training forFuel innerFuel cbFuel s σ' acc
      else .ok ⟨[[img]], s, σ', acc⟩

/-- Several consecutive iterations of the `while True` body, concatenating
the emission runs; the `batch_accumulator` persists across iterations. -/
def iterRun (cfg : Config) (env : Env) (training : Bool)
    (forFuel innerFuel cbFuel : Nat) :
    Nat → SamplerState → List Nat → List Img → Except Err IterOut
  | 0, s, σ, acc => .ok ⟨[], s, σ, acc⟩
  | n + 1, s, σ, acc =>
    match iterRound cfg env training forFuel innerFuel cbFuel s σ acc with
    | .error e => .error e
    | .ok o1 =>
      match iterRun cfg env training forFuel innerFuel cbFuel n o1.state o1.sched o1.acc with
      | .error e => .error e
      | .ok o2 => .ok ⟨o1.runs ++ o2.runs, o2.state, o2.sched, o2.acc⟩

/-- The dict `save_state` persists (sampler.py lines 61-75). -/
structure SavedState where
  aspect_ratio_bucket_indices : Store
  buckets : List Key
  exhausted_buckets : List Key
  batch_size : Nat
  current_bucket : Option Nat
  seen_images : List (Img × Key)
  current_epoch : Nat
deriving Repr, DecidableEq

/-- `save_state`: snapshot every persisted field from the live state. -/
def save_state (cfg : Config) (s : SamplerState) : SavedState :=
  ⟨s.aspect_ratio_bucket_indices, s.buckets, s.exhausted_buckets, cfg.batch_size,
    s.current_bucket, s.seen_images, s.current_epoch⟩

/-- What `load_states` reads back from the state manager: a previous-state
dict in which each key may be absent. -/
structure Snapshot where
  exhausted_buckets : Option (List Key)
  current_epoch : Option Nat
  seen_images : Option (List (Img × Key))
deriving Repr, DecidableEq

/-- The previous-state dict corresponding to a `save_state` snapshot (all
keys present).  `load_states` never reads the saved `buckets`,
`current_bucket` or `batch_size` entries. -/
def toSnapshot (v : SavedState) : Snapshot :=
  ⟨some v.exhausted_buckets, some v.current_epoch, some v.seen_images⟩

/-- `load_states` (sampler.py lines 77-93): `seen_images` from the
seen-images file, `buckets` reloaded as ALL keys of the live store,
`exhausted_buckets` / `current_epoch` / `seen_images` overridden from the
previous-state dict when present.  `current_bucket` keeps the constructor's
`None`. -/
def load_states (st : Store) (seenFile : List (Img × Key)) (prev : Snapshot) :
    SamplerState where
  aspect_ratio_bucket_indices := st
  buckets := storeKeys st
  exhausted_buckets := prev.exhausted_buckets.getD []
  seen_images := prev.seen_images.getD seenFile
  current_bucket := none
  current_epoch := prev.current_epoch.getD 1

/-- `__init__`: `load_states` followed by `change_bucket`. -/
def initSampler (cbFuel : Nat) (st : Store) (seenFile : List (Img × Key))
    (prev : Snapshot) (σ : List Nat) : Except Err (SamplerState × List Nat) :=
  changeBucketF cbFuel (load_states st seenFile prev) σ

/-- Probability that `_yield_random_image` returns a given identifier: a
bucket uniform among `buckets`, then an item uniform within that bucket (the
two independent `random.choice` calls of sampler.py lines 100-105). -/
def yieldRandomImageProb (s : SamplerState) (img : Img) : ℚ :=
  ((s.buckets.map (fun b =>
    let items := (storeLookup s.aspect_ratio_bucket_indices b).getD []
    if items.length = 0 then 0
    else (items.count img : ℚ) / (items.length : ℚ))).sum) / (s.buckets.length : ℚ)

/-- The distribution claimed by the spec for the not-training path: uniform
across all items of all buckets of the `buckets` list. -/
def uniformAllItemsProb (s : SamplerState) (img : Img) : ℚ :=
  let all := (s.buckets.map
    (fun b => (storeLookup s.aspect_ratio_bucket_indices b).getD [])).flatten
  (all.count img : ℚ) / (all.length : ℚ)

/-! ### Concrete fixtures

Small stores, environments and states used by the counterexamples and
witnesses.  Decoded dimensions 1 x 1 give aspect key "1.0" and 2 x 1 give
"2.0", so images validate in buckets carrying those keys. -/

/-- Batch size 2, keep unwanted images, minimum side length 1. -/
def cfgB2 : Config := ⟨2, false, some 1⟩

/-- Every path exists; everything decodes to a 1 x 1 image. -/
def envSquare : Env := ⟨fun _ => true, fun _ => some ⟨1, 1, false⟩⟩

/-- Every path exists; "b1" and "b2" decode 2 x 1, the rest 1 x 1. -/
def envRatio : Env :=
  ⟨fun _ => true,
    fun p => if p = "b1" ∨ p = "b2" then some ⟨2, 1, false⟩ else some ⟨1, 1, false⟩⟩

/-- Like `envRatio` but the path "am" does not exist. -/
def envMissing : Env :=
  ⟨fun p => p ≠ "am",
    fun p => if p = "b1" ∨ p = "b2" then some ⟨2, 1, false⟩ else some ⟨1, 1, false⟩⟩

/-- Three buckets: a drawable square bucket and two short buckets. -/
def store3 : Store := [("1.0", ["c1", "c2"]), ("2.0", ["a1"]), ("3.0", ["b1"])]

/-- Mid-epoch state over `store3` with `current_bucket` pointing at "1.0". -/
def s3 : SamplerState := ⟨store3, ["1.0", "2.0", "3.0"], [], [], some 0, 1⟩

/-- Two full buckets. -/
def store12 : Store := [("1.0", ["a1", "a2"]), ("2.0", ["b1", "b2"])]

/-- A state over `store12` in which "2.0" has been moved to
`exhausted_buckets` (so `buckets` and `exhausted_buckets` are disjoint), as
`move_to_exhausted` leaves it; this is the state that gets checkpointed. -/
def sPre12 : SamplerState := ⟨store12, ["1.0"], ["2.0"], [], some 0, 3⟩

/-- A store whose first bucket holds one good and one missing image. -/
def storeC2 : Store := [("1.0", ["a1", "am"]), ("2.0", ["b1", "b2"])]

/-- Fresh state over `storeC2`. -/
def sC2 : SamplerState := ⟨storeC2, ["1.0", "2.0"], [], [], some 0, 1⟩

/-- Two buckets of different sizes for the distribution comparison. -/
def sC9 : SamplerState :=
  ⟨[("1.0", ["a", "b"]), ("2.0", ["c"])], ["1.0", "2.0"], [], [], some 0, 1⟩

/-- A state over `store12` about to roll over: every bucket exhausted, one
seen image. -/
def sRoll : SamplerState := ⟨store12, [], ["1.0", "2.0"], [("a1", "1.0")], some 0, 5⟩

/-- A mid-epoch state over `store12` whose `current_bucket` points at the
second bucket. -/
def sCur1 : SamplerState := ⟨store12, ["1.0", "2.0"], [], [], some 1, 3⟩

/-! ### Claim C1: resume idempotence -/

/-- C1 is false as stated: resuming from the checkpoint of `sPre12` (whose
`exhausted_buckets` is `["2.0"]`) and iterating in training mode emits "b1"
and "b2", which the Bucket Store files under the loaded exhausted bucket
"2.0", before any epoch rollover (the epoch stays 3): `load_states` rebuilds
`buckets` from all store keys, ignoring the loaded `exhausted_buckets`. -/
theorem c1_counterexample :
    initSampler 1 store12 [] (toSnapshot (save_state cfgB2 sPre12)) [0, 0, 0, 0, 0, 0, 0] =
      .ok (⟨store12, ["1.0", "2.0"], ["2.0"], [], some 0, 3⟩, [0, 0, 0, 0, 0, 0]) ∧
    iterRound cfgB2 envRatio true 5 3 1
        ⟨store12, ["1.0", "2.0"], ["2.0"], [], some 0, 3⟩ [0, 0, 0, 0, 0, 0] [] =
      .ok ⟨[["a1", "a2"], ["b1", "b2"]],
        ⟨store12, ["1.0", "2.0"], ["2.0"],
          [("a1", "1.0"), ("a2", "1.0"), ("b1", "2.0"), ("b2", "2.0")], some 0, 3⟩, [], []⟩ ∧
    "2.0" ∈ (toSnapshot (save_state cfgB2 sPre12)).exhausted_buckets.getD [] ∧
    "b1" ∈ (storeLookup store12 "2.0").getD [] ∧
    "b1" ∈ [["a1", "a2"], ["b1", "b2"]].flatten := by
  refine ⟨by rfl, by rfl, by decide, by decide, by decide⟩

/-! ### Claim C2: batches and bucket boundaries -/

/-- C2 is false as stated: over `storeC2` (where "am" is missing and is
dropped by validation without refilling the draw), one training round emits
the single emission run ["a1", "b1", "b2"], which has three identifiers
(batch_size is 2) and mixes the bucket of "a1" ("1.0") with that of "b1" and
"b2" ("2.0"): the partially filled accumulator persists across the bucket
change and the flush emits everything accumulated. -/
theorem c2_counterexample :
    iterRound cfgB2 envMissing true 5 3 1 sC2 [0, 0, 0, 0, 0] [] =
      .ok ⟨[["a1", "b1", "b2"]],
        ⟨[("1.0", ["a1"]), ("2.0", ["b1", "b2"])], ["1.0", "2.0"], [],
          [("a1", "1.0"), ("b1", "2.0"), ("b2", "2.0")], some 0, 1⟩, [], []⟩ ∧
    ([["a1", "b1", "b2"]] : List (List Img)).length = 1 ∧
    ¬ (["a1", "b1", "b2"] : List Img).length = cfgB2.batch_size ∧
    "a1" ∈ (storeLookup storeC2 "1.0").getD [] ∧
    "b1" ∈ (storeLookup storeC2 "2.0").getD [] ∧
    ("1.0" : Key) ≠ "2.0" := by
  refine ⟨by rfl, by decide, by decide, by decide, by decide, by decide⟩

/-! ### Claim C3: exhaustion marking -/

/-- C3 is false as stated: running one round from `s3` (schedule chosen so
that the post-batch `change_bucket` lands on "2.0"), the sweep checks bucket
"3.0" at the last index and finds 1 unseen image (fewer than batch_size 2),
yet the exhaustion step moves `buckets[current_bucket]` = "2.0" into
`exhausted_buckets`; "3.0" is never moved even though its unseen count was
below batch_size at the moment of its check, and "2.0" was never the bucket
whose count that check inspected. -/
theorem c3_counterexample :
    iterRound cfgB2 envSquare true 5 3 1 s3 [0, 0, 1, 0] [] =
      .ok ⟨[["c1", "c2"]],
        ⟨store3, ["1.0", "3.0"], ["2.0"],
          [("c1", "1.0"), ("c2", "1.0")], some 0, 1⟩, [], []⟩ ∧
    (get_unseen_images ⟨store3, ["1.0", "3.0"], ["2.0"],
        [("c1", "1.0"), ("c2", "1.0")], some 0, 1⟩ "3.0" = some ["b1"]) ∧
    (["b1"] : List Img).length < cfgB2.batch_size ∧
    "3.0" ∉ (["2.0"] : List Key) ∧
    (⟨store3, ["1.0", "3.0"], ["2.0"],
        [("c1", "1.0"), ("c2", "1.0")], some 0, 1⟩ : SamplerState).exhausted_buckets
      = ["2.0"] := by
  refine ⟨by rfl, by rfl, by decide, by decide, by decide⟩

/-! ### Claim C4: disjointness of buckets and exhausted_buckets -/

/-- C4 is false as stated: `sPre12` itself satisfies the disjointness
invariant, but the state constructed by `load_states` from its checkpoint
has "2.0" in both `buckets` (reloaded as ALL store keys) and the loaded
`exhausted_buckets`. -/
theorem c4_counterexample :
    sPre12.buckets.filter (fun b => sPre12.exhausted_buckets.contains b) = [] ∧
    "2.0" ∈ (load_states store12 [] (toSnapshot (save_state cfgB2 sPre12))).buckets ∧
    "2.0" ∈ (load_states store12 [] (toSnapshot (save_state cfgB2 sPre12))).exhausted_buckets := by
  refine ⟨by decide, by decide, by decide⟩

/-! ### Rotation-engine lemmas -/

/-- A successful `pickAndSet` changes only `current_bucket`. -/
theorem pickAndSet_ok {a : List Key} {s s' : SamplerState} {σ σ' : List Nat}
    (h : pickAndSet a s σ = .ok (s', σ')) :
    s'.aspect_ratio_bucket_indices = s.aspect_ratio_bucket_indices ∧
    s'.buckets = s.buckets ∧ s'.exhausted_buckets = s.exhausted_buckets ∧
    s'.seen_images = s.seen_images ∧ s'.current_epoch = s.current_epoch ∧
    ∃ i, s'.current_bucket = some i := by
  unfold pickAndSet at h
  cases hc : randChoice a (σ.headD 0) with
  | none => simp only [hc] at h; exact Except.noConfusion h
  | some nb =>
    simp only [hc] at h
    cases hb : bucket_name_to_id s nb with
    | none => simp only [hb] at h; exact Except.noConfusion h
    | some i =>
      simp only [hb, Except.ok.injEq, Prod.mk.injEq] at h
      obtain ⟨h1, -⟩ := h
      rw [← h1]
      exact ⟨rfl, rfl, rfl, rfl, rfl, i, rfl⟩

/-- `pickAndSet` only fails with a runtime error. -/
theorem pickAndSet_error {a : List Key} {s : SamplerState} {σ : List Nat} {e : Err}
    (h : pickAndSet a s σ = .error e) : e = .runtimeError := by
  unfold pickAndSet at h
  cases hc : randChoice a (σ.headD 0) with
  | none => simp only [hc, Except.error.injEq] at h; exact h.symm
  | some nb =>
    simp only [hc] at h
    cases hb : bucket_name_to_id s nb with
    | none => simp only [hb, Except.error.injEq] at h; exact h.symm
    | some i => simp only [hb] at h; exact Except.noConfusion h

/-- A successful `resetCore` performs exactly the documented field updates. -/
theorem resetCore_ok {s s1 : SamplerState} (h : resetCore s = .ok s1) :
    s1 = { s with
      current_epoch := s.current_epoch + 1,
      exhausted_buckets := [],
      buckets := load_buckets s,
      seen_images := [] } := by
  unfold resetCore at h
  split at h
  · cases h
  · simp only [Except.ok.injEq] at h
    exact h.symm

/-- `resetCore` raises exactly on an empty universe and carries the entry
state unmodified. -/
theorem resetCore_error {s : SamplerState} {e : Err} (h : resetCore s = .error e) :
    e = .emptyDataset s ∧ s.seen_images.length = 0 ∧
      (get_unseen_images_all s).length = 0 := by
  unfold resetCore at h
  split at h
  next hc => cases h; exact ⟨rfl, hc⟩
  · cases h

/-- `resetCore` raises whenever both the seen set and the unseen union are
empty. -/
theorem resetCore_raises {s : SamplerState}
    (h1 : s.seen_images.length = 0) (h2 : (get_unseen_images_all s).length = 0) :
    resetCore s = .error (.emptyDataset s) := by
  unfold resetCore
  simp [h1, h2]

/-- An empty key list means an empty store. -/
theorem storeKeys_eq_nil {st : Store} (h : storeKeys st = []) : st = [] := by
  cases st with
  | nil => rfl
  | cons kv rest => simp [storeKeys] at h

/-- On a freshly reset state (no exhausted buckets, buckets = store keys,
seen cleared), `change_bucket` can only set `current_bucket`: a nested
second reset always raises. -/
theorem changeBucketF_fresh {fuel : Nat} {s1 s2 : SamplerState} {σ σ2 : List Nat}
    (hex : s1.exhausted_buckets = [])
    (hb : s1.buckets = storeKeys s1.aspect_ratio_bucket_indices)
    (hs : s1.seen_images = [])
    (h : changeBucketF fuel s1 σ = .ok (s2, σ2)) :
    s2.aspect_ratio_bucket_indices = s1.aspect_ratio_bucket_indices ∧
    s2.buckets = s1.buckets ∧ s2.exhausted_buckets = s1.exhausted_buckets ∧
    s2.seen_images = s1.seen_images ∧ s2.current_epoch = s1.current_epoch ∧
    ∃ i, s2.current_bucket = some i := by
  cases fuel with
  | zero =>
    unfold changeBucketF at h
    split at h
    · exact Except.noConfusion h
    · exact pickAndSet_ok h
  | succ f =>
    unfold changeBucketF at h
    split at h
    next hemp =>
      have hnil : s1.buckets = [] := by
        have := List.isEmpty_iff.mp hemp
        unfold availableBuckets at this
        rw [hex] at this
        simpa using this
      have hstore : s1.aspect_ratio_bucket_indices = [] :=
        storeKeys_eq_nil (by rw [← hb]; exact hnil)
      have hre : resetCore s1 = .error (.emptyDataset s1) := by
        apply resetCore_raises
        · rw [hs]; rfl
        · unfold get_unseen_images_all
          rw [hstore]
          rfl
      simp only [hre] at h
      exact Except.noConfusion h
    · exact pickAndSet_ok h

/-- A successful `change_bucket` either leaves everything but
`current_bucket` unchanged (some bucket was available) or performs exactly
one epoch rollover first (none was). -/
theorem changeBucketF_ok {fuel : Nat} {s s' : SamplerState} {σ σ' : List Nat}
    (h : changeBucketF fuel s σ = .ok (s', σ')) :
    s'.aspect_ratio_bucket_indices = s.aspect_ratio_bucket_indices ∧
    (∃ i, s'.current_bucket = some i) ∧
    ((s'.buckets = s.buckets ∧ s'.exhausted_buckets = s.exhausted_buckets ∧
      s'.seen_images = s.seen_images ∧ s'.current_epoch = s.current_epoch) ∨
     (s'.buckets = load_buckets s ∧ s'.exhausted_buckets = [] ∧
      s'.seen_images = [] ∧ s'.current_epoch = s.current_epoch + 1)) := by
  cases fuel with
  | zero =>
    unfold changeBucketF at h
    split at h
    · cases h
    · obtain ⟨h1, h2, h3, h4, h5, h6⟩ := pickAndSet_ok h
      exact ⟨h1, h6, .inl ⟨h2, h3, h4, h5⟩⟩
  | succ f =>
    unfold changeBucketF at h
    split at h
    · cases hrc : resetCore s with
      | error e => simp only [hrc] at h; exact Except.noConfusion h
      | ok s1 =>
        simp only [hrc] at h
        have hs1 := resetCore_ok hrc
        cases hcb : changeBucketF f s1 σ with
        | error e => simp only [hcb] at h; exact Except.noConfusion h
        | ok p =>
          obtain ⟨s2, σ2⟩ := p
          simp only [hcb] at h
          have h2 := changeBucketF_fresh (by rw [hs1]) (by rw [hs1]; rfl) (by rw [hs1]) hcb
          obtain ⟨g1, g2, g3, g4, g5, _, hcbv⟩ := h2
          obtain ⟨p1, p2, p3, p4, p5, p6⟩ := pickAndSet_ok h
          refine ⟨by rw [p1, g1, hs1], p6, .inr ?_⟩
          rw [p2, p3, p4, p5, g2, g3, g4, g5, hs1]
          exact ⟨rfl, rfl, rfl, rfl⟩
    · obtain ⟨h1, h2, h3, h4, h5, h6⟩ := pickAndSet_ok h
      exact ⟨h1, h6, .inl ⟨h2, h3, h4, h5⟩⟩

/-- A `change_bucket` failure with the empty-dataset error originates at a
`resetCore` whose entry state (carried in the error) had an empty seen set
and an empty unseen union. -/
theorem changeBucketF_error_empty {fuel : Nat} {s : SamplerState} {σ : List Nat}
    {t : SamplerState} (h : changeBucketF fuel s σ = .error (.emptyDataset t)) :
    t.seen_images.length = 0 ∧ (get_unseen_images_all t).length = 0 := by
  induction fuel generalizing s σ with
  | zero =>
    unfold changeBucketF at h
    split at h
    · simp only [Except.error.injEq] at h
      exact Err.noConfusion h
    · exact Err.noConfusion (pickAndSet_error h)
  | succ f ih =>
    unfold changeBucketF at h
    split at h
    · cases hrc : resetCore s with
      | error e =>
        simp only [hrc, Except.error.injEq] at h
        obtain ⟨he, h1, h2⟩ := resetCore_error hrc
        rw [h] at he
        cases he
        exact ⟨h1, h2⟩
      | ok s1 =>
        simp only [hrc] at h
        cases hcb : changeBucketF f s1 σ with
        | error e =>
          simp only [hcb, Except.error.injEq] at h
          rw [h] at hcb
          exact ih hcb
        | ok p =>
          obtain ⟨s2, σ2⟩ := p
          simp only [hcb] at h
          exact Err.noConfusion (pickAndSet_error h)
    · exact Err.noConfusion (pickAndSet_error h)

/-- A completed `_reset_buckets` (including its trailing `change_bucket`)
clears the seen set and the exhausted list, reloads `buckets` from the
(unchanged) live store, and increments the epoch by exactly one. -/
theorem resetBucketsF_ok {fuel : Nat} {s s' : SamplerState} {σ σ' : List Nat}
    (h : resetBucketsF fuel s σ = .ok (s', σ')) :
    s'.aspect_ratio_bucket_indices = s.aspect_ratio_bucket_indices ∧
    s'.seen_images = [] ∧ s'.exhausted_buckets = [] ∧
    s'.buckets = storeKeys s'.aspect_ratio_bucket_indices ∧
    s'.current_epoch = s.current_epoch + 1 ∧
    ∃ i, s'.current_bucket = some i := by
  unfold resetBucketsF at h
  cases hrc : resetCore s with
  | error e => simp only [hrc] at h; exact Except.noConfusion h
  | ok s1 =>
    simp only [hrc] at h
    have hs1 := resetCore_ok hrc
    obtain ⟨g1, g2, g3, g4, g5, i, g6⟩ :=
      changeBucketF_fresh (by rw [hs1]) (by rw [hs1]; rfl) (by rw [hs1]) h
    subst hs1
    exact ⟨g1, by rw [g4], by rw [g3], by rw [g2, g1]; rfl, by rw [g5], i, g6⟩

/-- Epoch monotonicity of `change_bucket`. -/
theorem changeBucketF_epoch_le {fuel : Nat} {s s' : SamplerState} {σ σ' : List Nat}
    (h : changeBucketF fuel s σ = .ok (s', σ')) :
    s.current_epoch ≤ s'.current_epoch := by
  rcases changeBucketF_ok h with ⟨-, -, hc | hc⟩
  · rw [hc.2.2.2]
  · rw [hc.2.2.2]; omega

/-- If `change_bucket` kept the epoch, it kept `buckets`,
`exhausted_buckets` and `seen_images` too. -/
theorem changeBucketF_epoch_eq {fuel : Nat} {s s' : SamplerState} {σ σ' : List Nat}
    (h : changeBucketF fuel s σ = .ok (s', σ'))
    (he : s'.current_epoch = s.current_epoch) :
    s'.buckets = s.buckets ∧ s'.exhausted_buckets = s.exhausted_buckets ∧
    s'.seen_images = s.seen_images := by
  rcases changeBucketF_ok h with ⟨-, -, hc | hc⟩
  · exact ⟨hc.1, hc.2.1, hc.2.2.1⟩
  · rw [hc.2.2.2] at he; omega

/-! ### Validation and draw lemmas -/

/-- A dict assignment either keeps the key list or appends the new key. -/
theorem assocSet_keys (m : List (Img × Key)) (k : Img) (v : Key) :
    (assocSet m k v).map Prod.fst = m.map Prod.fst ∨
    (assocSet m k v).map Prod.fst = m.map Prod.fst ++ [k] := by
  unfold assocSet
  split
  next hc =>
    left
    rw [List.map_map]
    apply List.map_congr_left
    intro kv _
    by_cases hk : kv.1 = k
    · simp [hk]
    · simp [hk]
  · right
    simp

/-- Keys present before a dict assignment are present after it. -/
theorem assocSet_keys_mem {m : List (Img × Key)} {k : Img} {v : Key} {x : Img}
    (hx : x ∈ m.map Prod.fst) : x ∈ (assocSet m k v).map Prod.fst := by
  rcases assocSet_keys m k v with h | h
  · rw [h]; exact hx
  · rw [h]; exact List.mem_append_left _ hx

/-- Everything `random.sample` returns comes from the pool. -/
theorem sampleDraw_subset :
    ∀ (k : Nat) (pool : List Img) (σ : List Nat) (x : Img),
      x ∈ (sampleDraw pool k σ).1 → x ∈ pool := by
  intro k
  induction k with
  | zero => intro pool σ x hx; simp [sampleDraw] at hx
  | succ n ih =>
    intro pool σ x hx
    simp only [sampleDraw] at hx
    cases hg : pool.get? (σ.headD 0 % pool.length) with
    | none => simp only [hg] at hx; simp at hx
    | some y =>
      simp only [hg] at hx
      simp only [List.mem_cons] at hx
      rcases hx with hx | hx
      · rw [hx]; exact List.get?_mem hg
      · exact (List.eraseIdx_sublist pool (σ.headD 0 % pool.length)).subset (ih _ _ _ hx)

/-- Frame and growth properties of
`_validate_and_yield_images_from_samples`: it touches only the Bucket Store
and `seen_images`; `seen_images` keys only grow; every output identifier was
already accumulated or was one of the samples. -/
theorem vy_spec (cfg : Config) (env : Env) (training : Bool) (bucket : Key) :
    ∀ (samples : List Img) (s : SamplerState) (ty : List Img),
      (validate_and_yield_images_from_samples cfg env training s samples bucket ty).2.buckets
          = s.buckets ∧
      (validate_and_yield_images_from_samples cfg env training s samples bucket ty).2.exhausted_buckets
          = s.exhausted_buckets ∧
      (validate_and_yield_images_from_samples cfg env training s samples bucket ty).2.current_bucket
          = s.current_bucket ∧
      (validate_and_yield_images_from_samples cfg env training s samples bucket ty).2.current_epoch
          = s.current_epoch ∧
      (∀ x, x ∈ seenKeys s →
        x ∈ seenKeys (validate_and_yield_images_from_samples cfg env training s samples bucket ty).2) ∧
      (∀ x, x ∈ (validate_and_yield_images_from_samples cfg env training s samples bucket ty).1 →
        x ∈ ty ∨ x ∈ samples) := by
  intro samples
  induction samples with
  | nil =>
    intro s ty
    exact ⟨rfl, rfl, rfl, rfl, fun x hx => hx, fun x hx => .inl hx⟩
  | cons p rest ih =>
    intro s ty
    by_cases hv : classifyImage cfg env p bucket = .valid
    · have hstep : validate_and_yield_images_from_samples cfg env training s (p :: rest) bucket ty
          = validate_and_yield_images_from_samples cfg env training
              (if training then
                { s with
                  aspect_ratio_bucket_indices :=
                    applyOutcome s.aspect_ratio_bucket_indices p bucket
                      (classifyImage cfg env p bucket),
                  seen_images := assocSet s.seen_images p bucket }
               else
                { s with
                  aspect_ratio_bucket_indices :=
                    applyOutcome s.aspect_ratio_bucket_indices p bucket
                      (classifyImage cfg env p bucket) })
              rest bucket (ty ++ [p]) := by
        simp only [validate_and_yield_images_from_samples, process_single_image, hv, if_pos]
      rw [hstep]
      obtain ⟨i1, i2, i3, i4, i5, i6⟩ := ih _ (ty ++ [p])
      refine ⟨?_, ?_, ?_, ?_, ?_, ?_⟩
      · rw [i1]; cases training <;> rfl
      · rw [i2]; cases training <;> rfl
      · rw [i3]; cases training <;> rfl
      · rw [i4]; cases training <;> rfl
      · intro x hx
        apply i5
        cases training
        · exact hx
        · exact assocSet_keys_mem hx
      · intro x hx
        rcases i6 x hx with h | h
        · rcases List.mem_append.mp h with h | h
          · exact .inl h
          · exact .inr (by simp at h; simp [h])
        · exact .inr (List.mem_cons_of_mem _ h)
    · have hstep : validate_and_yield_images_from_samples cfg env training s (p :: rest) bucket ty
          = validate_and_yield_images_from_samples cfg env training
              { s with
                aspect_ratio_bucket_indices :=
                  applyOutcome s.aspect_ratio_bucket_indices p bucket
                    (classifyImage cfg env p bucket) }
              rest bucket ty := by
        simp only [validate_and_yield_images_from_samples, process_single_image, hv, if_neg]
        rfl
      rw [hstep]
      obtain ⟨i1, i2, i3, i4, i5, i6⟩ := ih _ ty
      refine ⟨by rw [i1], by rw [i2], by rw [i3], by rw [i4], fun x hx => i5 x hx, ?_⟩
      intro x hx
      rcases i6 x hx with h | h
      · exact .inl h
      · exact .inr (List.mem_cons_of_mem _ h)

/-- `move_to_exhausted` succeeds exactly by appending
`buckets[current_bucket]` to `exhausted_buckets` and erasing its first
occurrence from `buckets`, leaving every other field unchanged. -/
theorem move_to_exhausted_ok {s s' : SamplerState} (h : move_to_exhausted s = .ok s') :
    ∃ i b, s.current_bucket = some i ∧ s.buckets.get? i = some b ∧
      s' = { s with
        exhausted_buckets := s.exhausted_buckets ++ [b],
        buckets := s.buckets.erase b } := by
  unfold move_to_exhausted at h
  cases hi : s.current_bucket with
  | none => simp only [hi] at h; exact Except.noConfusion h
  | some i =>
    simp only [hi] at h
    cases hb : s.buckets.get? i with
    | none => simp only [hb] at h; exact Except.noConfusion h
    | some b =>
      simp only [hb, Except.ok.injEq] at h
      exact ⟨i, b, rfl, hb, h.symm⟩

/-! ### Epoch monotonicity -/

/-- The inner while loop never decreases the epoch. -/
theorem innerWhile_epoch_le (cfg : Config) (env : Env) (training : Bool) (bucket : Key) :
    ∀ (fuel cbFuel : Nat) (available : List Img) (s : SamplerState) (σ : List Nat)
      (acc : List Img) (drew : Bool) (io : InnerOut),
      innerWhile cfg env training bucket fuel cbFuel available s σ acc drew = .ok io →
      s.current_epoch ≤ io.state.current_epoch := by
  intro fuel
  induction fuel with
  | zero =>
    intro cbFuel available s σ acc drew io h
    simp only [innerWhile] at h
    exact Except.noConfusion h
  | succ f ih =>
    intro cbFuel available s σ acc drew io h
    simp only [innerWhile] at h
    split at h
    · split at h
      · split at h
        · exact Except.noConfusion h
        next p heq =>
          obtain ⟨s2, σ2⟩ := p
          injection h with h'
          rw [← h']
          have hv := (vy_spec cfg env training bucket
            (sampleDraw available cfg.batch_size σ).1 s []).2.2.2.1
          have hc := changeBucketF_epoch_le heq
          rw [hv] at hc
          exact hc
      · split at h
        · exact Except.noConfusion h
        next avail2 heq =>
          have hrec := ih cbFuel avail2 _ _ _ _ io h
          have hv := (vy_spec cfg env training bucket
            (sampleDraw available cfg.batch_size σ).1 s []).2.2.2.1
          rw [hv] at hrec
          exact hrec
    · injection h with h'
      rw [← h']

/-- The bucket sweep never decreases the epoch. -/
theorem forLoop_epoch_le (cfg : Config) (env : Env) (training : Bool) :
    ∀ (fuel innerFuel cbFuel : Nat) (obj : List Key) (aliased : Bool) (idx : Nat)
      (s : SamplerState) (σ : List Nat) (acc : List Img) (runs : List (List Img))
      (allEx : Bool) (lo : LoopOut),
      forLoop cfg env training fuel innerFuel cbFuel obj aliased idx s σ acc runs allEx
        = .ok lo →
      s.current_epoch ≤ lo.state.current_epoch := by
  intro fuel
  induction fuel with
  | zero =>
    intro innerFuel cbFuel obj aliased idx s σ acc runs allEx lo h
    simp only [forLoop] at h
    exact Except.noConfusion h
  | succ f ih =>
    intro innerFuel cbFuel obj aliased idx s σ acc runs allEx lo h
    simp only [forLoop] at h
    split at h
    · injection h with h'
      rw [← h']
    next bucket hbk =>
      split at h
      · exact Except.noConfusion h
      next available hav =>
        split at h
        · exact Except.noConfusion h
        next io hio =>
          have h1 := innerWhile_epoch_le cfg env training bucket _ _ _ _ _ _ _ io hio
          split at h
          · split at h
            · exact Except.noConfusion h
            next s2 hmte =>
              split at h
              · exact Except.noConfusion h
              next p hcb =>
                obtain ⟨s3, σ3⟩ := p
                have h2 : s3.current_epoch ≤ lo.state.current_epoch :=
                  ih _ _ _ _ _ _ _ _ _ _ _ h
                obtain ⟨i, b, hcur, hget, hs2⟩ := move_to_exhausted_ok hmte
                have h3 : io.state.current_epoch = s2.current_epoch := by rw [hs2]
                have h4 := changeBucketF_epoch_le hcb
                omega
          · have h2 := ih _ _ _ _ _ _ _ _ _ _ _ h
            omega

/-- One `while True` iteration never decreases the epoch. -/
theorem iterRound_epoch_le (cfg : Config) (env : Env) (training : Bool)
    (forFuel innerFuel cbFuel : Nat) (s : SamplerState) (σ : List Nat)
    (acc : List Img) (o : IterOut)
    (h : iterRound cfg env training forFuel innerFuel cbFuel s σ acc = .ok o) :
    s.current_epoch ≤ o.state.current_epoch := by
  have hsweep : ∀ σ0, bucketSweep cfg env training forFuel innerFuel cbFuel s σ0 acc = .ok o →
      s.current_epoch ≤ o.state.current_epoch := by
    intro σ0 hs
    unfold bucketSweep at hs
    split at hs
    · exact Except.noConfusion hs
    next lo hlo =>
      have h1 := forLoop_epoch_le cfg env training _ _ _ _ _ _ _ _ _ _ _ lo hlo
      split at hs
      · split at hs
        · exact Except.noConfusion hs
        next p hrb =>
          obtain ⟨s2, σ2⟩ := p
          have h2 := (resetBucketsF_ok hrb).2.2.2.2.1
          injection hs with hs'
          rw [← hs']
          show s.current_epoch ≤ s2.current_epoch
          omega
      · injection hs with hs'
        rw [← hs']
        exact h1
  unfold iterRound at h
  split at h
  · exact hsweep σ h
  · split at h
    · exact Except.noConfusion h
    next img σ' hyr =>
      split at h
      · exact hsweep σ' h
      · injection h with h'
        rw [← h']

/-- Any number of `while True` iterations never decreases the epoch. -/
theorem iterRun_epoch_le (cfg : Config) (env : Env) (training : Bool)
    (forFuel innerFuel cbFuel : Nat) :
    ∀ (n : Nat) (s : SamplerState) (σ : List Nat) (acc : List Img) (o : IterOut),
      iterRun cfg env training forFuel innerFuel cbFuel n s σ acc = .ok o →
      s.current_epoch ≤ o.state.current_epoch := by
  intro n
  induction n with
  | zero =>
    intro s σ acc o h
    simp only [iterRun] at h
    injection h with h'
    rw [← h']
  | succ m ih =>
    intro s σ acc o h
    simp only [iterRun] at h
    split at h
    · exact Except.noConfusion h
    next o1 h1 =>
      split at h
      · exact Except.noConfusion h
      next o2 h2 =>
        have g1 := iterRound_epoch_le cfg env training _ _ _ _ _ _ o1 h1
        have g2 := ih _ _ _ o2 h2
        injection h with h'
        rw [← h']
        show s.current_epoch ≤ o2.state.current_epoch
        omega

/-! ### Claims C3 and C4: exhaustion, disjointness -/

/-- C3 amended: the exhaustion step succeeds exactly by moving
`buckets[current_bucket]` — whatever bucket the sweep's count check actually
inspected — appending it to `exhausted_buckets` and erasing it from
`buckets`, with every other field unchanged. -/
theorem c3_move_to_exhausted_spec :
    ∀ (s s' : SamplerState),
      move_to_exhausted s = .ok s' ↔
      ∃ i b, s.current_bucket = some i ∧ s.buckets.get? i = some b ∧
        s' = { s with
          exhausted_buckets := s.exhausted_buckets ++ [b],
          buckets := s.buckets.erase b } := by
  intro s s'
  constructor
  · exact move_to_exhausted_ok
  · rintro ⟨i, b, h1, h2, h3⟩
    unfold move_to_exhausted
    simp only [h1, h2]
    rw [h3, h1]

/-- C4 amended: `move_to_exhausted` preserves the disjointness of `buckets`
and `exhausted_buckets` (for a duplicate-free buckets list), and a completed
`_reset_buckets` leaves them disjoint since it empties `exhausted_buckets`;
the invariant is only broken by `load_states` (see the counterexample). -/
theorem c4_disjointness :
    (∀ (s s' : SamplerState), s.buckets.Nodup →
      (∀ b, b ∈ s.buckets → b ∉ s.exhausted_buckets) →
      move_to_exhausted s = .ok s' →
      (∀ b, b ∈ s'.buckets → b ∉ s'.exhausted_buckets)) ∧
    (∀ (fuel : Nat) (s s' : SamplerState) (σ σ' : List Nat),
      resetBucketsF fuel s σ = .ok (s', σ') →
      (∀ b, b ∈ s'.buckets → b ∉ s'.exhausted_buckets)) := by
  constructor
  · intro s s' hnd hdisj h b hb hbe
    obtain ⟨i, b0, hcur, hget, hs'⟩ := move_to_exhausted_ok h
    rw [hs'] at hb hbe
    simp only [] at hb hbe
    have hmem := (List.Nodup.mem_erase_iff hnd).mp hb
    rcases List.mem_append.mp hbe with hx | hx
    · exact hdisj b hmem.2 hx
    · simp only [List.mem_singleton] at hx
      exact hmem.1 hx
  · intro fuel s s' σ σ' h b hb hbe
    rw [(resetBucketsF_ok h).2.2.1] at hbe
    exact (List.not_mem_nil b) hbe

/-- Witness for `c4_disjointness`: the concrete move of "2.0" out of
`sCur1.buckets`, and the concrete rollover from `sRoll`. -/
theorem c4_disjointness_witness :
    (∀ b, b ∈ (⟨store12, ["1.0"], ["2.0"], [], some 1, 3⟩ : SamplerState).buckets →
      b ∉ (⟨store12, ["1.0"], ["2.0"], [], some 1, 3⟩ : SamplerState).exhausted_buckets) ∧
    (∀ b, b ∈ (⟨store12, ["1.0", "2.0"], [], [], some 0, 6⟩ : SamplerState).buckets →
      b ∉ (⟨store12, ["1.0", "2.0"], [], [], some 0, 6⟩ : SamplerState).exhausted_buckets) := by
  constructor
  · exact c4_disjointness.1 sCur1 _ (by decide) (by decide) (by rfl)
  · exact c4_disjointness.2 1 sRoll _ [0] [] (by rfl)

/-! ### Claims C6 and C7: epoch rollover -/

/-- C6: `_reset_buckets` raises the fatal empty-universe error if and only
if, at its entry, both `seen_images` and the union of unseen items across
all buckets are empty; the error carries the entry state unmodified (the
raise is the first statement); any empty-universe failure of the full
rollover-plus-rotation path originates at such a state; and constructing a
sampler over an empty Bucket Store with an empty seen set raises it. -/
theorem c6_empty_universe :
    (∀ s : SamplerState,
      resetCore s = .error (.emptyDataset s) ↔
        (s.seen_images.length = 0 ∧ (get_unseen_images_all s).length = 0)) ∧
    (∀ (s : SamplerState) (e : Err), resetCore s = .error e → e = .emptyDataset s) ∧
    (∀ (fuel : Nat) (s : SamplerState) (σ : List Nat) (t : SamplerState),
      resetBucketsF fuel s σ = .error (.emptyDataset t) →
        t.seen_images.length = 0 ∧ (get_unseen_images_all t).length = 0) ∧
    (∀ σ : List Nat, initSampler 1 [] [] ⟨none, none, none⟩ σ =
      .error (.emptyDataset (load_states [] [] ⟨none, none, none⟩))) := by
  refine ⟨?_, ?_, ?_, ?_⟩
  · intro s
    constructor
    · intro h
      exact (resetCore_error h).2
    · intro h
      exact resetCore_raises h.1 h.2
  · intro s e h
    exact (resetCore_error h).1
  · intro fuel s σ t h
    unfold resetBucketsF at h
    cases hrc : resetCore s with
    | error e =>
      simp only [hrc, Except.error.injEq] at h
      obtain ⟨he, c1, c2⟩ := resetCore_error hrc
      rw [h] at he
      injection he with ht
      rw [ht]
      exact ⟨c1, c2⟩
    | ok s1 =>
      simp only [hrc] at h
      exact changeBucketF_error_empty h
  · intro σ
    rfl

/-- Witness for `c6_empty_universe`: the state loaded from an empty store
and empty snapshot satisfies the empty-universe condition concretely. -/
theorem c6_empty_universe_witness :
    (load_states [] [] ⟨none, none, none⟩).seen_images.length = 0 ∧
    (get_unseen_images_all (load_states [] [] ⟨none, none, none⟩)).length = 0 :=
  c6_empty_universe.2.2.1 1 (load_states [] [] ⟨none, none, none⟩) [0]
    (load_states [] [] ⟨none, none, none⟩) (by rfl)

/-- C7: a completed epoch rollover clears `seen_images` and
`exhausted_buckets`, replaces `buckets` with the key set of the (unchanged)
live Bucket Store, and increments `current_epoch` by exactly one; and over
any number of `while True` iterations the epoch never decreases. -/
theorem c7_rollover_effects :
    (∀ (fuel : Nat) (s s' : SamplerState) (σ σ' : List Nat),
      resetBucketsF fuel s σ = .ok (s', σ') →
      s'.seen_images = [] ∧ s'.exhausted_buckets = [] ∧
      s'.aspect_ratio_bucket_indices = s.aspect_ratio_bucket_indices ∧
      s'.buckets = storeKeys s'.aspect_ratio_bucket_indices ∧
      s'.current_epoch = s.current_epoch + 1) ∧
    (∀ (cfg : Config) (env : Env) (training : Bool)
      (forFuel innerFuel cbFuel n : Nat) (s : SamplerState) (σ : List Nat)
      (acc : List Img) (o : IterOut),
      iterRun cfg env training forFuel innerFuel cbFuel n s σ acc = .ok o →
      s.current_epoch ≤ o.state.current_epoch) := by
  constructor
  · intro fuel s s' σ σ' h
    obtain ⟨g1, g2, g3, g4, g5, -⟩ := resetBucketsF_ok h
    exact ⟨g2, g3, g1, g4, g5⟩
  · intro cfg env training forFuel innerFuel cbFuel n s σ acc o h
    exact iterRun_epoch_le cfg env training forFuel innerFuel cbFuel n s σ acc o h

/-- Witness for `c7_rollover_effects`: the concrete rollover from `sRoll`
(epoch 5 to 6, fields reset), and a concrete zero-round run. -/
theorem c7_rollover_effects_witness :
    ((⟨store12, ["1.0", "2.0"], [], [], some 0, 6⟩ : SamplerState).seen_images = [] ∧
     (⟨store12, ["1.0", "2.0"], [], [], some 0, 6⟩ : SamplerState).exhausted_buckets = [] ∧
     (⟨store12, ["1.0", "2.0"], [], [], some 0, 6⟩ : SamplerState).aspect_ratio_bucket_indices
        = sRoll.aspect_ratio_bucket_indices ∧
     (⟨store12, ["1.0", "2.0"], [], [], some 0, 6⟩ : SamplerState).buckets
        = storeKeys (⟨store12, ["1.0", "2.0"], [], [], some 0, 6⟩ : SamplerState).aspect_ratio_bucket_indices ∧
     (⟨store12, ["1.0", "2.0"], [], [], some 0, 6⟩ : SamplerState).current_epoch
        = sRoll.current_epoch + 1) ∧
    s3.current_epoch ≤ (⟨[], s3, [], []⟩ : IterOut).state.current_epoch := by
  constructor
  · exact c7_rollover_effects.1 1 sRoll _ [0] [] (by rfl)
  · exact c7_rollover_effects.2 cfgB2 envSquare true 5 3 1 0 s3 [] [] ⟨[], s3, [], []⟩ (by rfl)

/-- Witness for `c3_move_to_exhausted_spec`: the concrete move from `sCur1`
(current bucket index 1, bucket "2.0"). -/
theorem c3_move_to_exhausted_spec_witness :
    move_to_exhausted sCur1 = .ok ⟨store12, ["1.0"], ["2.0"], [], some 1, 3⟩ :=
  (c3_move_to_exhausted_spec sCur1 ⟨store12, ["1.0"], ["2.0"], [], some 1, 3⟩).mpr
    ⟨1, "2.0", rfl, rfl, by decide⟩

/-! ### Emission-run lengths (claim C2) -/

/-- A run flushed by the inner while loop has at least `batch_size`
identifiers: the flush is guarded by the accumulator-length test. -/
theorem innerWhile_flush_len (cfg : Config) (env : Env) (training : Bool) (bucket : Key) :
    ∀ (fuel cbFuel : Nat) (available : List Img) (s : SamplerState) (σ : List Nat)
      (acc : List Img) (drew : Bool) (io : InnerOut) (r : List Img),
      innerWhile cfg env training bucket fuel cbFuel available s σ acc drew = .ok io →
      io.flushed = some r → cfg.batch_size ≤ r.length := by
  intro fuel
  induction fuel with
  | zero =>
    intro cbFuel available s σ acc drew io r h hf
    simp only [innerWhile] at h
    exact Except.noConfusion h
  | succ f ih =>
    intro cbFuel available s σ acc drew io r h hf
    simp only [innerWhile] at h
    split at h
    · split at h
      next hguard =>
        split at h
        · exact Except.noConfusion h
        next p heq =>
          injection h with h'
          rw [← h'] at hf
          simp only [Option.some.injEq] at hf
          rw [← hf]
          exact hguard
      · split at h
        · exact Except.noConfusion h
        next avail2 heq => exact ih cbFuel avail2 _ _ _ _ io r h hf
    · injection h with h'
      rw [← h'] at hf
      exact Option.noConfusion hf

/-- Every run the bucket sweep adds to its accumulator of emission runs has
at least `batch_size` identifiers. -/
theorem forLoop_runs_len (cfg : Config) (env : Env) (training : Bool) :
    ∀ (fuel innerFuel cbFuel : Nat) (obj : List Key) (aliased : Bool) (idx : Nat)
      (s : SamplerState) (σ : List Nat) (acc : List Img) (runs : List (List Img))
      (allEx : Bool) (lo : LoopOut),
      forLoop cfg env training fuel innerFuel cbFuel obj aliased idx s σ acc runs allEx
        = .ok lo →
      ∀ r ∈ lo.runs, r ∈ runs ∨ cfg.batch_size ≤ r.length := by
  intro fuel
  induction fuel with
  | zero =>
    intro innerFuel cbFuel obj aliased idx s σ acc runs allEx lo h
    simp only [forLoop] at h
    exact Except.noConfusion h
  | succ f ih =>
    intro innerFuel cbFuel obj aliased idx s σ acc runs allEx lo h
    simp only [forLoop] at h
    split at h
    · injection h with h'
      rw [← h']
      intro r hr
      exact .inl hr
    next bucket hbk =>
      split at h
      · exact Except.noConfusion h
      next available hav =>
        split at h
        · exact Except.noConfusion h
        next io hio =>
          have hrun1 : ∀ r ∈ runs ++ (match io.flushed with | some r => [r] | none => []),
              r ∈ runs ∨ cfg.batch_size ≤ r.length := by
            intro r hr
            rcases List.mem_append.mp hr with hr | hr
            · exact .inl hr
            · right
              cases hflush : io.flushed with
              | none => rw [hflush] at hr; cases hr
              | some r0 =>
                rw [hflush] at hr
                simp only [List.mem_singleton] at hr
                rw [hr]
                exact innerWhile_flush_len cfg env training bucket _ _ _ _ _ _ _ io r0
                  hio hflush
          split at h
          · split at h
            · exact Except.noConfusion h
            next s2 hmte =>
              split at h
              · exact Except.noConfusion h
              next p hcb =>
                intro r hr
                rcases ih _ _ _ _ _ _ _ _ _ _ _ h r hr with hx | hx
                · exact hrun1 r hx
                · exact .inr hx
          · intro r hr
            rcases ih _ _ _ _ _ _ _ _ _ _ _ h r hr with hx | hx
            · exact hrun1 r hx
            · exact .inr hx

/-- C2 amended: in training mode every emission run of any number of
`while True` iterations contains at least `batch_size` identifiers (the flush
guard); exact size and bucket purity fail, as the counterexample shows. -/
theorem c2_emission_run_at_least_batch :
    ∀ (cfg : Config) (env : Env) (forFuel innerFuel cbFuel n : Nat)
      (s : SamplerState) (σ : List Nat) (acc : List Img) (o : IterOut),
      iterRun cfg env true forFuel innerFuel cbFuel n s σ acc = .ok o →
      ∀ r ∈ o.runs, cfg.batch_size ≤ r.length := by
  intro cfg env forFuel innerFuel cbFuel n
  induction n with
  | zero =>
    intro s σ acc o h
    simp only [iterRun] at h
    injection h with h'
    rw [← h']
    intro r hr
    cases hr
  | succ m ih =>
    intro s σ acc o h
    simp only [iterRun] at h
    split at h
    · exact Except.noConfusion h
    next o1 h1 =>
      split at h
      · exact Except.noConfusion h
      next o2 h2 =>
        have ground : ∀ r ∈ o1.runs, cfg.batch_size ≤ r.length := by
          unfold iterRound at h1
          rw [if_pos rfl] at h1
          unfold bucketSweep at h1
          split at h1
          · exact Except.noConfusion h1
          next lo hlo =>
            have hbase := forLoop_runs_len cfg env true _ _ _ _ _ _ _ _ _ _ _ lo hlo
            split at h1
            · split at h1
              · exact Except.noConfusion h1
              next p hrb =>
                injection h1 with h1'
                rw [← h1']
                intro r hr
                rcases hbase r hr with hx | hx
                · cases hx
                · exact hx
            · injection h1 with h1'
              rw [← h1']
              intro r hr
              rcases hbase r hr with hx | hx
              · cases hx
              · exact hx
        intro r hr
        injection h with h'
        rw [← h'] at hr
        rcases List.mem_append.mp hr with hx | hx
        · exact ground r hx
        · exact ih _ _ _ o2 h2 r hx

/-- Witness for `c2_emission_run_at_least_batch`: the concrete run over
`storeC2` whose single emission run has 3 identifiers with batch size 2. -/
theorem c2_emission_run_at_least_batch_witness :
    cfgB2.batch_size ≤ (["a1", "b1", "b2"] : List Img).length :=
  c2_emission_run_at_least_batch cfgB2 envMissing 5 3 1 1 sC2 [0, 0, 0, 0, 0] []
    ⟨[["a1", "b1", "b2"]],
      ⟨[("1.0", ["a1"]), ("2.0", ["b1", "b2"])], ["1.0", "2.0"], [],
        [("a1", "1.0"), ("b1", "2.0"), ("b2", "2.0")], some 0, 1⟩, [], []⟩ (by rfl)
    ["a1", "b1", "b2"] (by decide)

/-! ### No re-emission of already-seen identifiers (claim C1) -/

/-- Membership in a list whose elements passed the not-seen filter refutes
membership in the seen keys. -/
theorem filter_unseen_not_seen {s : SamplerState} {imgs : List Img} {x : Img}
    (hx : x ∈ imgs.filter (fun i => !(isSeen s i))) : x ∉ seenKeys s := by
  intro hmem
  have hpred := (List.mem_filter.mp hx).2
  have hc : isSeen s x = true := by
    unfold isSeen
    exact (List.elem_iff.mpr hmem)
  rw [hc] at hpred
  cases hpred

/-- The all-buckets unseen union is disjoint from the seen keys. -/
theorem get_unseen_images_all_fresh {s : SamplerState} :
    ∀ x ∈ get_unseen_images_all s, x ∉ seenKeys s := by
  intro x hx
  unfold get_unseen_images_all at hx
  rcases List.mem_flatten.mp hx with ⟨l, hl, hxl⟩
  rcases List.mem_map.mp hl with ⟨kv, -, hkv⟩
  rw [← hkv] at hxl
  exact filter_unseen_not_seen hxl

/-- Whatever `_get_unseen_images` returns for a bucket is disjoint from the
current `seen_images` keys. -/
theorem get_unseen_images_fresh {s : SamplerState} {b : Key} {l : List Img}
    (h : get_unseen_images s b = some l) : ∀ x ∈ l, x ∉ seenKeys s := by
  unfold get_unseen_images at h
  split at h
  · injection h with h'
    rw [← h']
    exact get_unseen_images_all_fresh
  · cases hb : storeLookup s.aspect_ratio_bucket_indices b with
    | none =>
      simp only [hb, Option.map_none'] at h
      exact Option.noConfusion h
    | some imgs =>
      simp only [hb, Option.map_some', Option.some.injEq] at h
      intro x hx
      rw [← h] at hx
      exact filter_unseen_not_seen hx

/-- Through the inner while loop, with the epoch preserved: a set of
identifiers below the current seen keys stays below them, accumulator
entries stay outside it, and any flushed emission run avoids it. -/
theorem innerWhile_no_reemit (cfg : Config) (env : Env) (training : Bool) (bucket : Key) :
    ∀ (fuel cbFuel : Nat) (available : List Img) (s : SamplerState) (σ : List Nat)
      (acc : List Img) (drew : Bool) (io : InnerOut) (K : List Img),
      innerWhile cfg env training bucket fuel cbFuel available s σ acc drew = .ok io →
      io.state.current_epoch = s.current_epoch →
      (∀ x ∈ K, x ∈ seenKeys s) →
      (∀ x ∈ acc, x ∉ K) →
      (∀ x ∈ available, x ∉ seenKeys s) →
      (∀ x ∈ K, x ∈ seenKeys io.state) ∧
      (∀ x ∈ io.acc, x ∉ K) ∧
      (∀ r, io.flushed = some r → ∀ x ∈ r, x ∉ K) := by
  intro fuel
  induction fuel with
  | zero =>
    intro cbFuel available s σ acc drew io K h
    simp only [innerWhile] at h
    exact Except.noConfusion h
  | succ f ih =>
    intro cbFuel available s σ acc drew io K h hep hK hacc hfresh
    simp only [innerWhile] at h
    split at h
    · have hvs := vy_spec cfg env training bucket
        (sampleDraw available cfg.batch_size σ).1 s []
      have hyld : ∀ x ∈ (validate_and_yield_images_from_samples cfg env training s
          (sampleDraw available cfg.batch_size σ).1 bucket []).1, x ∉ K := by
        intro x hx
        rcases hvs.2.2.2.2.2 x hx with hx' | hx'
        · cases hx'
        · intro hxK
          exact hfresh x (sampleDraw_subset _ _ _ _ hx') (hK x hxK)
      have hacc1 : ∀ x ∈ acc ++ (validate_and_yield_images_from_samples cfg env training s
          (sampleDraw available cfg.batch_size σ).1 bucket []).1, x ∉ K := by
        intro x hx
        rcases List.mem_append.mp hx with hx | hx
        · exact hacc x hx
        · exact hyld x hx
      have hKvy : ∀ x ∈ K, x ∈ seenKeys (validate_and_yield_images_from_samples cfg env
          training s (sampleDraw available cfg.batch_size σ).1 bucket []).2 := by
        intro x hx
        exact hvs.2.2.2.2.1 x (hK x hx)
      split at h
      next hguard =>
        split at h
        · exact Except.noConfusion h
        next p heq =>
          obtain ⟨s2, σ2⟩ := p
          injection h with h'
          have hst : io.state = s2 := by rw [← h']
          have hfl : io.flushed = some (acc ++ (validate_and_yield_images_from_samples cfg
              env training s (sampleDraw available cfg.batch_size σ).1 bucket []).1) := by
            rw [← h']
          have hio_acc : io.acc = [] := by rw [← h']
          have he2 : s2.current_epoch =
              (validate_and_yield_images_from_samples cfg env training s
                (sampleDraw available cfg.batch_size σ).1 bucket []).2.current_epoch := by
            rw [hvs.2.2.2.1, ← hst, hep]
          have hseen2 := (changeBucketF_epoch_eq heq he2).2.2
          refine ⟨?_, ?_, ?_⟩
          · intro x hx
            rw [hst]
            unfold seenKeys
            rw [hseen2]
            exact hKvy x hx
          · intro x hx
            rw [hio_acc] at hx
            cases hx
          · intro r hr x hx
            rw [hfl] at hr
            injection hr with hr'
            rw [← hr'] at hx
            exact hacc1 x hx
      · split at h
        · exact Except.noConfusion h
        next avail2 heq =>
          have hfresh2 := get_unseen_images_fresh heq
          have hep2 : io.state.current_epoch =
              (validate_and_yield_images_from_samples cfg env training s
                (sampleDraw available cfg.batch_size σ).1 bucket []).2.current_epoch := by
            rw [hvs.2.2.2.1, hep]
          exact ih cbFuel avail2 _ _ _ _ io K h hep2 hKvy hacc1 hfresh2
    · injection h with h'
      refine ⟨?_, ?_, ?_⟩
      · intro x hx
        rw [← h']
        exact hK x hx
      · intro x hx
        rw [← h'] at hx
        exact hacc x hx
      · intro r hr
        rw [← h'] at hr
        exact Option.noConfusion hr

/-- Through the bucket sweep, with the epoch preserved: seen keys only grow
above the protected set, the accumulator stays outside it, and every newly
added emission run avoids it. -/
theorem forLoop_no_reemit (cfg : Config) (env : Env) (training : Bool) :
    ∀ (fuel innerFuel cbFuel : Nat) (obj : List Key) (aliased : Bool) (idx : Nat)
      (s : SamplerState) (σ : List Nat) (acc : List Img) (runs : List (List Img))
      (allEx : Bool) (lo : LoopOut) (K : List Img),
      forLoop cfg env training fuel innerFuel cbFuel obj aliased idx s σ acc runs allEx
        = .ok lo →
      lo.state.current_epoch = s.current_epoch →
      (∀ x ∈ K, x ∈ seenKeys s) →
      (∀ x ∈ acc, x ∉ K) →
      (∀ x ∈ K, x ∈ seenKeys lo.state) ∧
      (∀ x ∈ lo.acc, x ∉ K) ∧
      (∀ r ∈ lo.runs, r ∈ runs ∨ ∀ x ∈ r, x ∉ K) := by
  intro fuel
  induction fuel with
  | zero =>
    intro innerFuel cbFuel obj aliased idx s σ acc runs allEx lo K h
    simp only [forLoop] at h
    exact Except.noConfusion h
  | succ f ih =>
    intro innerFuel cbFuel obj aliased idx s σ acc runs allEx lo K h hep hK hacc
    simp only [forLoop] at h
    split at h
    · injection h with h'
      refine ⟨?_, ?_, ?_⟩
      · intro x hx; rw [← h']; exact hK x hx
      · intro x hx; rw [← h'] at hx; exact hacc x hx
      · intro r hr; rw [← h'] at hr; exact .inl hr
    next bucket hbk =>
      split at h
      · exact Except.noConfusion h
      next available hav =>
        split at h
        · exact Except.noConfusion h
        next io hio =>
          have hfresh := get_unseen_images_fresh hav
          have hlow := innerWhile_epoch_le cfg env training bucket _ _ _ _ _ _ _ io hio
          split at h
          · split at h
            · exact Except.noConfusion h
            next s2 hmte =>
              split at h
              · exact Except.noConfusion h
              next p hcb =>
                obtain ⟨s3, σ3⟩ := p
                have hrec_le : s3.current_epoch ≤ lo.state.current_epoch :=
                  forLoop_epoch_le cfg env training _ _ _ _ _ _ _ _ _ _ _ lo h
                obtain ⟨i, b0, hcur, hget, hs2⟩ := move_to_exhausted_ok hmte
                have hmte_ep : s2.current_epoch = io.state.current_epoch := by rw [hs2]
                have hcb_le := changeBucketF_epoch_le hcb
                have hio_ep : io.state.current_epoch = s.current_epoch := by omega
                obtain ⟨k1, k2, k3⟩ := innerWhile_no_reemit cfg env training bucket
                  _ _ _ _ _ _ _ io K hio hio_ep hK hacc hfresh
                have hcb_ep : s3.current_epoch = s2.current_epoch := by omega
                have hseen3 := (changeBucketF_epoch_eq hcb hcb_ep).2.2
                have hK3 : ∀ x ∈ K, x ∈ seenKeys s3 := by
                  intro x hx
                  unfold seenKeys
                  rw [hseen3, hs2]
                  exact k1 x hx
                have hrec_ep : lo.state.current_epoch = s3.current_epoch := by omega
                obtain ⟨m1, m2, m3⟩ := ih _ _ _ _ _ _ _ _ _ _ _ K h hrec_ep hK3 k2
                refine ⟨m1, m2, ?_⟩
                intro r hr
                rcases m3 r hr with hx | hx
                · rcases List.mem_append.mp hx with hy | hy
                  · exact .inl hy
                  · right
                    cases hflush : io.flushed with
                    | none => rw [hflush] at hy; cases hy
                    | some r0 =>
                      rw [hflush] at hy
                      simp only [List.mem_singleton] at hy
                      rw [hy]
                      exact k3 r0 hflush
                · exact .inr hx
          · have hrec_le : io.state.current_epoch ≤ lo.state.current_epoch :=
              forLoop_epoch_le cfg env training _ _ _ _ _ _ _ _ _ _ _ lo h
            have hio_ep : io.state.current_epoch = s.current_epoch := by omega
            obtain ⟨k1, k2, k3⟩ := innerWhile_no_reemit cfg env training bucket
              _ _ _ _ _ _ _ io K hio hio_ep hK hacc hfresh
            have hrec_ep : lo.state.current_epoch = io.state.current_epoch := by omega
            obtain ⟨m1, m2, m3⟩ := ih _ _ _ _ _ _ _ _ _ _ _ K h hrec_ep k1 k2
            refine ⟨m1, m2, ?_⟩
            intro r hr
            rcases m3 r hr with hx | hx
            · rcases List.mem_append.mp hx with hy | hy
              · exact .inl hy
              · right
                cases hflush : io.flushed with
                | none => rw [hflush] at hy; cases hy
                | some r0 =>
                  rw [hflush] at hy
                  simp only [List.mem_singleton] at hy
                  rw [hy]
                  exact k3 r0 hflush
            · exact .inr hx

/-- C1 amended: a fresh generator over any sampler state (in particular one
just constructed from a loaded snapshot), run in training mode for any
number of `while True` iterations during which no epoch rollover happens,
never emits an identifier that was already a key of `seen_images` at the
start.  (Identifiers from buckets in the loaded `exhausted_buckets` are NOT
protected: see the counterexample.) -/
theorem c1_resume_no_reemission :
    ∀ (cfg : Config) (env : Env) (forFuel innerFuel cbFuel n : Nat)
      (s : SamplerState) (σ : List Nat) (o : IterOut),
      iterRun cfg env true forFuel innerFuel cbFuel n s σ [] = .ok o →
      o.state.current_epoch = s.current_epoch →
      ∀ r ∈ o.runs, ∀ x ∈ r, x ∉ seenKeys s := by
  have round : ∀ (cfg : Config) (env : Env) (forFuel innerFuel cbFuel : Nat)
      (s : SamplerState) (σ : List Nat) (acc : List Img) (o : IterOut) (K : List Img),
      iterRound cfg env true forFuel innerFuel cbFuel s σ acc = .ok o →
      o.state.current_epoch = s.current_epoch →
      (∀ x ∈ K, x ∈ seenKeys s) →
      (∀ x ∈ acc, x ∉ K) →
      (∀ x ∈ K, x ∈ seenKeys o.state) ∧
      (∀ x ∈ o.acc, x ∉ K) ∧
      (∀ r ∈ o.runs, ∀ x ∈ r, x ∉ K) := by
    intro cfg env forFuel innerFuel cbFuel s σ acc o K h hep hK hacc
    unfold iterRound at h
    rw [if_pos rfl] at h
    unfold bucketSweep at h
    split at h
    · exact Except.noConfusion h
    next lo hlo =>
      have hlo_le := forLoop_epoch_le cfg env true _ _ _ _ _ _ _ _ _ _ _ lo hlo
      split at h
      · split at h
        · exact Except.noConfusion h
        next p hrb =>
          obtain ⟨s2, σ2⟩ := p
          have hreset := (resetBucketsF_ok hrb).2.2.2.2.1
          have : o.state.current_epoch = s2.current_epoch := by
            injection h with h'
            rw [← h']
          omega
      · injection h with h'
        have hloep : lo.state.current_epoch = s.current_epoch := by
          rw [← h'] at hep
          exact hep
        obtain ⟨m1, m2, m3⟩ := forLoop_no_reemit cfg env true _ _ _ _ _ _ _ _ _ _ _ lo K
          hlo hloep hK hacc
        refine ⟨?_, ?_, ?_⟩
        · intro x hx; rw [← h']; exact m1 x hx
        · intro x hx; rw [← h'] at hx; exact m2 x hx
        · intro r hr x hx
          rw [← h'] at hr
          rcases m3 r hr with hy | hy
          · cases hy
          · exact hy x hx
  have run : ∀ (cfg : Config) (env : Env) (forFuel innerFuel cbFuel n : Nat)
      (s : SamplerState) (σ : List Nat) (acc : List Img) (o : IterOut) (K : List Img),
      iterRun cfg env true forFuel innerFuel cbFuel n s σ acc = .ok o →
      o.state.current_epoch = s.current_epoch →
      (∀ x ∈ K, x ∈ seenKeys s) →
      (∀ x ∈ acc, x ∉ K) →
      (∀ r ∈ o.runs, ∀ x ∈ r, x ∉ K) := by
    intro cfg env forFuel innerFuel cbFuel n
    induction n with
    | zero =>
      intro s σ acc o K h hep hK hacc
      simp only [iterRun] at h
      injection h with h'
      intro r hr
      rw [← h'] at hr
      cases hr
    | succ m ih =>
      intro s σ acc o K h hep hK hacc
      simp only [iterRun] at h
      split at h
      · exact Except.noConfusion h
      next o1 h1 =>
        split at h
        · exact Except.noConfusion h
        next o2 h2 =>
          have g1 := iterRound_epoch_le cfg env true _ _ _ _ _ _ o1 h1
          have g2 := iterRun_epoch_le cfg env true _ _ _ _ _ _ _ o2 h2
          have ho2 : o.state.current_epoch = o2.state.current_epoch := by
            injection h with h'
            rw [← h']
          have h1ep : o1.state.current_epoch = s.current_epoch := by omega
          obtain ⟨k1, k2, k3⟩ := round cfg env _ _ _ _ _ _ o1 K h1 h1ep hK hacc
          have h2ep : o2.state.current_epoch = o1.state.current_epoch := by omega
          have krest := ih _ _ _ o2 K h2 h2ep k1 k2
          intro r hr
          injection h with h'
          rw [← h'] at hr
          rcases List.mem_append.mp hr with hx | hx
          · exact k3 r hx
          · exact krest r hx
  intro cfg env forFuel innerFuel cbFuel n s σ o h hep
  exact run cfg env forFuel innerFuel cbFuel n s σ [] o (seenKeys s) h hep
    (fun x hx => hx) (fun x hx => absurd hx (List.not_mem_nil x))

/-- Witness for `c1_resume_no_reemission`: the resumed run of the
counterexample (which keeps the epoch at 3) emits only identifiers outside
the loaded (empty-keyed) seen set — instantiated on a state carrying a
non-trivial seen mapping. -/
theorem c1_resume_no_reemission_witness :
    ("c1" : Img) ∉ seenKeys ⟨store3, ["1.0", "2.0", "3.0"], [], [("z1", "1.0")], some 0, 1⟩ :=
  c1_resume_no_reemission cfgB2 envSquare 5 3 1 1
    ⟨store3, ["1.0", "2.0", "3.0"], [], [("z1", "1.0")], some 0, 1⟩ [0, 0, 1, 0]
    ⟨[["c1", "c2"]],
      ⟨store3, ["1.0", "3.0"], ["2.0"],
        [("z1", "1.0"), ("c1", "1.0"), ("c2", "1.0")], some 0, 1⟩, [], []⟩
    (by rfl) (by rfl) ["c1", "c2"] (by decide) "c1" (by decide)

/-! ### Claim C5: the unseen pool and the draw -/

/-- In a duplicate-free list, the element at position `j` is removed by
erasing position `j`. -/
theorem not_mem_eraseIdx_of_nodup :
    ∀ (l : List Img) (j : Nat) (x : Img), l.Nodup → l.get? j = some x →
      x ∉ l.eraseIdx j := by
  intro l
  induction l with
  | nil => intro j x _ h; simp at h
  | cons a t ih =>
    intro j x hnd h
    cases j with
    | zero =>
      simp only [List.get?] at h
      injection h with h'
      simp only [List.eraseIdx]
      rw [← h']
      exact (List.nodup_cons.mp hnd).1
    | succ n =>
      simp only [List.get?] at h
      simp only [List.eraseIdx]
      intro hmem
      rcases List.mem_cons.mp hmem with h' | h'
      · exact (List.nodup_cons.mp hnd).1 (h' ▸ List.get?_mem h)
      · exact ih n x (List.nodup_cons.mp hnd).2 h h'

/-- Elements other than the one at the erased position survive `eraseIdx`. -/
theorem mem_eraseIdx_of_ne :
    ∀ (l : List Img) (j : Nat) (x y : Img), l.get? j = some x → y ∈ l → y ≠ x →
      y ∈ l.eraseIdx j := by
  intro l
  induction l with
  | nil => intro j x y h; simp at h
  | cons a t ih =>
    intro j x y h hy hne
    cases j with
    | zero =>
      simp only [List.get?] at h
      injection h with h'
      simp only [List.eraseIdx]
      rcases List.mem_cons.mp hy with h'' | h''
      · exact absurd (h''.trans h') hne
      · exact h''
    | succ n =>
      simp only [List.get?] at h
      simp only [List.eraseIdx]
      rcases List.mem_cons.mp hy with h'' | h''
      · exact h'' ▸ List.mem_cons_self a _
      · exact List.mem_cons_of_mem a (ih n x y h h'' hne)

/-- When the pool is large enough, `random.sample` returns exactly `k`
items. -/
theorem sampleDraw_length :
    ∀ (k : Nat) (pool : List Img) (σ : List Nat), k ≤ pool.length →
      (sampleDraw pool k σ).1.length = k := by
  intro k
  induction k with
  | zero => intro pool σ _; rfl
  | succ n ih =>
    intro pool σ h
    have hj : σ.headD 0 % pool.length < pool.length := Nat.mod_lt _ (by omega)
    simp only [sampleDraw]
    cases hg : pool.get? (σ.headD 0 % pool.length) with
    | none =>
      have := List.get?_eq_none.mp hg
      omega
    | some x =>
      simp only [List.length_cons]
      have hlen : (pool.eraseIdx (σ.headD 0 % pool.length)).length = pool.length - 1 := by
        rw [List.length_eraseIdx, if_pos hj]
      rw [ih (pool.eraseIdx (σ.headD 0 % pool.length)) σ.tail (by omega)]

/-- `random.sample` over a duplicate-free pool draws without replacement:
the result is duplicate-free. -/
theorem sampleDraw_nodup :
    ∀ (k : Nat) (pool : List Img) (σ : List Nat), pool.Nodup →
      (sampleDraw pool k σ).1.Nodup := by
  intro k
  induction k with
  | zero => intro pool σ _; simp [sampleDraw]
  | succ n ih =>
    intro pool σ hnd
    simp only [sampleDraw]
    cases hg : pool.get? (σ.headD 0 % pool.length) with
    | none => simp
    | some x =>
      simp only []
      apply List.nodup_cons.mpr
      constructor
      · intro hmem
        exact not_mem_eraseIdx_of_nodup pool _ x hnd hg
          (sampleDraw_subset n _ σ.tail x hmem)
      · exact ih _ σ.tail ((List.eraseIdx_sublist pool _).nodup hnd)

/-- Completeness of the draw model: every duplicate-free selection from a
duplicate-free pool is realized by some schedule, so "uniformly at random
without replacement" has exactly these outcomes as its support. -/
theorem sampleDraw_complete :
    ∀ (out pool : List Img), pool.Nodup → out.Nodup → (∀ x ∈ out, x ∈ pool) →
      ∃ σ, (sampleDraw pool out.length σ).1 = out := by
  intro out
  induction out with
  | nil => intro pool _ _ _; exact ⟨[], rfl⟩
  | cons x rest ih =>
    intro pool hpool hout hsub
    have hx : x ∈ pool := hsub x (List.mem_cons_self x rest)
    obtain ⟨j, hj⟩ := List.mem_iff_get?.mp hx
    have hjlt : j < pool.length := by
      rcases List.get?_eq_some.mp hj with ⟨hlt, -⟩
      exact hlt
    have hrest_sub : ∀ y ∈ rest, y ∈ pool.eraseIdx j := by
      intro y hy
      refine mem_eraseIdx_of_ne pool j x y hj (hsub y (List.mem_cons_of_mem x hy)) ?_
      intro hyx
      exact (List.nodup_cons.mp hout).1 (hyx ▸ hy)
    obtain ⟨σr, hσr⟩ := ih (pool.eraseIdx j)
      ((List.eraseIdx_sublist pool j).nodup hpool)
      (List.nodup_cons.mp hout).2 hrest_sub
    refine ⟨j :: σr, ?_⟩
    simp only [sampleDraw, List.headD_cons, List.tail_cons, Nat.mod_eq_of_lt hjlt, hj, hσr]

/-- C5: the unseen pool of a (truthy) bucket key is exactly the bucket's
Bucket Store membership minus the `seen_images` keys, and when the pool has
at least `batch_size` items the draw produces exactly `batch_size` distinct
items of the pool, with every such distinct selection a possible outcome
(the support of uniform sampling without replacement). -/
theorem c5_unseen_and_draw :
    (∀ (s : SamplerState) (b : Key) (imgs : List Img), b ≠ "" →
      storeLookup s.aspect_ratio_bucket_indices b = some imgs →
      get_unseen_images s b = some (imgs.filter (fun i => !(isSeen s i))) ∧
      (∀ x, x ∈ imgs.filter (fun i => !(isSeen s i)) ↔
        (x ∈ imgs ∧ x ∉ s.seen_images.map Prod.fst))) ∧
    (∀ (pool : List Img) (k : Nat) (σ : List Nat), k ≤ pool.length →
      (sampleDraw pool k σ).1.length = k ∧
      (∀ x ∈ (sampleDraw pool k σ).1, x ∈ pool) ∧
      (pool.Nodup → (sampleDraw pool k σ).1.Nodup)) ∧
    (∀ (pool out : List Img), pool.Nodup → out.Nodup → (∀ x ∈ out, x ∈ pool) →
      ∃ σ, (sampleDraw pool out.length σ).1 = out) := by
  refine ⟨?_, ?_, ?_⟩
  · intro s b imgs hb himgs
    constructor
    · unfold get_unseen_images
      rw [if_neg hb, himgs]
      rfl
    · intro x
      constructor
      · intro hx
        exact ⟨(List.mem_filter.mp hx).1, filter_unseen_not_seen hx⟩
      · intro ⟨h1, h2⟩
        apply List.mem_filter.mpr
        refine ⟨h1, ?_⟩
        simp only [Bool.not_eq_true']
        unfold isSeen
        cases hc : (seenKeys s).elem x with
        | false => exact hc
        | true => exact absurd (List.elem_iff.mp hc) h2
  · intro pool k σ hk
    exact ⟨sampleDraw_length k pool σ hk,
      fun x hx => sampleDraw_subset k pool σ x hx,
      fun hnd => sampleDraw_nodup k pool σ hnd⟩
  · exact fun pool out h1 h2 h3 => sampleDraw_complete out pool h1 h2 h3

/-- Witness for `c5_unseen_and_draw` at concrete inputs: the unseen pool of
bucket "1.0" of `s3`, a concrete 2-item draw from a 3-item pool, and a
schedule realizing the selection ["c2", "c1"]. -/
theorem c5_unseen_and_draw_witness :
    get_unseen_images s3 "1.0" =
      some (["c1", "c2"].filter (fun i => !(isSeen s3 i))) ∧
    (sampleDraw ["c1", "c2", "x"] 2 [0, 0]).1.length = 2 ∧
    ∃ σ, (sampleDraw ["c1", "c2", "x"] (["c2", "c1"] : List Img).length σ).1
      = ["c2", "c1"] := by
  refine ⟨?_, ?_, ?_⟩
  · exact (c5_unseen_and_draw.1 s3 "1.0" ["c1", "c2"] (by decide) (by rfl)).1
  · exact (c5_unseen_and_draw.2.1 ["c1", "c2", "x"] 2 [0, 0] (by decide)).1
  · exact c5_unseen_and_draw.2.2 ["c1", "c2", "x"] ["c2", "c1"]
      (by decide) (by decide) (by decide)

/-! ### Claim C9: the not-training path -/

/-- C9 is false as stated: over `sC9` (bucket "1.0" holds two items, bucket
"2.0" one), `_yield_random_image` returns "c" with probability 1/2 (uniform
bucket choice, then uniform item choice), not the 1/3 that a uniform choice
across all three items would give; "c" is nevertheless operationally
reachable. -/
theorem c9_counterexample :
    yield_random_image sC9 [1, 0] = (some "c", []) ∧
    yieldRandomImageProb sC9 "c" = 1 / 2 ∧
    uniformAllItemsProb sC9 "c" = 1 / 3 ∧
    yieldRandomImageProb sC9 "c" ≠ uniformAllItemsProb sC9 "c" := by
  refine ⟨by rfl, ?_, ?_, ?_⟩
  · simp [yieldRandomImageProb, sC9, storeLookup]
  · simp [uniformAllItemsProb, sC9, storeLookup]
  · simp [yieldRandomImageProb, uniformAllItemsProb, sC9, storeLookup]

/-- C9 amended: when the Mode Flag reports not training, one iteration of
the `while True` body yields exactly the one identifier `_yield_random_image`
chose (provided it is non-empty, the truthiness the source tests), performs
no validation, and leaves the whole sampler state and the accumulator
unchanged; the choice is a uniform bucket followed by a uniform item within
it, which is not uniform across all items when bucket sizes differ. -/
theorem c9_not_training_frame :
    ∀ (cfg : Config) (env : Env) (forFuel innerFuel cbFuel : Nat)
      (s : SamplerState) (σ σ' : List Nat) (acc : List Img) (img : Img),
      yield_random_image s σ = (some img, σ') → img ≠ "" →
      iterRound cfg env false forFuel innerFuel cbFuel s σ acc = .ok ⟨[[img]], s, σ', acc⟩ := by
  intro cfg env forFuel innerFuel cbFuel s σ σ' acc img h hne
  simp [iterRound, h, hne]

/-- Witness for `c9_not_training_frame` at `sC9` with schedule `[1, 0]`. -/
theorem c9_not_training_frame_witness :
    iterRound cfgB2 envSquare false 5 3 1 sC9 [1, 0] [] = .ok ⟨[["c"]], sC9, [], []⟩ :=
  c9_not_training_frame cfgB2 envSquare 5 3 1 sC9 [1, 0] [] [] "c" (by rfl) (by decide)

/-! ### Claim C8: validation order and mutations -/

/-- When both sides of a decoded image reach the configured positive minimum,
the post-transpose height is positive. -/
theorem theight_pos (d : ImgData) (m : Nat) (hm : 1 ≤ m)
    (h : ¬(d.width < m ∨ d.height < m)) : theight d ≠ 0 := by
  push_neg at h
  rcases h with ⟨h1, h2⟩
  unfold theight
  split <;> omega

/-- C8: with a configured (positive) minimum size, `_process_single_image`
applies the four checks in order and performs exactly the specified Bucket
Store mutation for the first failing check; a candidate comes back valid iff
all four checks pass. -/
theorem c8_validation_order :
    ∀ (cfg : Config) (env : Env) (p : Img) (b : Key) (m : Nat),
      cfg.minimum_image_size = some m → 1 ≤ m →
      (∀ st, applyOutcome st p b .removeMissing = removeImage st p b) ∧
      (∀ st, applyOutcome st p b .errorCaught = st) ∧
      (∀ st, applyOutcome st p b .smallImage = handleSmallImage st p b) ∧
      (∀ st a, applyOutcome st p b (.wrongBucket a) = handleIncorrectBucket st p b a) ∧
      (env.pathExists p = false → classifyImage cfg env p b = .removeMissing) ∧
      (env.pathExists p = true → env.decode p = none →
        classifyImage cfg env p b = .errorCaught) ∧
      (∀ d, env.pathExists p = true → env.decode p = some d →
        (d.width < m ∨ d.height < m) → classifyImage cfg env p b = .smallImage) ∧
      (∀ d, env.pathExists p = true → env.decode p = some d →
        ¬(d.width < m ∨ d.height < m) →
        ratioKey (roundHundredths (twidth d) (theight d)) ≠ b →
        classifyImage cfg env p b =
          .wrongBucket (ratioKey (roundHundredths (twidth d) (theight d)))) ∧
      (classifyImage cfg env p b = .valid ↔
        env.pathExists p = true ∧ ∃ d, env.decode p = some d ∧
          ¬(d.width < m ∨ d.height < m) ∧
          ratioKey (roundHundredths (twidth d) (theight d)) = b) ∧
      (∀ st, (process_single_image cfg env st p b).1 = some p ↔
        classifyImage cfg env p b = .valid) := by
  intro cfg env p b m hmin hm
  refine ⟨fun st => rfl, fun st => rfl, fun st => rfl, fun st a => rfl, ?_, ?_, ?_, ?_, ?_, ?_⟩
  · intro hex; simp [classifyImage, hex]
  · intro hex hdec; simp [classifyImage, hex, hdec]
  · intro d hex hdec hsmall; simp [classifyImage, hex, hdec, hmin, hsmall]
  · intro d hex hdec hsmall hne
    simp [classifyImage, hex, hdec, hmin, hsmall, theight_pos d m hm hsmall, hne]
  · constructor
    · intro hv
      by_cases hex : env.pathExists p
      · cases hdec : env.decode p with
        | none => simp [classifyImage, hex, hdec] at hv
        | some d =>
          refine ⟨hex, d, rfl, ?_⟩
          by_cases hsmall : d.width < m ∨ d.height < m
          · simp [classifyImage, hex, hdec, hmin, hsmall] at hv
          · refine ⟨hsmall, ?_⟩
            by_cases hkey : ratioKey (roundHundredths (twidth d) (theight d)) = b
            · exact hkey
            · simp [classifyImage, hex, hdec, hmin, hsmall,
                theight_pos d m hm hsmall, hkey] at hv
      · simp [classifyImage, hex] at hv
    · rintro ⟨hex, d, hdec, hsmall, hkey⟩
      simp [classifyImage, hex, hdec, hmin, hsmall, theight_pos d m hm hsmall, hkey]
  · intro st
    unfold process_single_image
    by_cases hv : classifyImage cfg env p b = .valid <;> simp [hv]

/-- Witness for `c8_validation_order`: the configuration `cfgB2` has minimum
size 1, and for the candidate "c1" in bucket "1.0" under `envSquare` every
check passes. -/
theorem c8_validation_order_witness :
    classifyImage cfgB2 envSquare "c1" "1.0" = .valid ∧
    (process_single_image cfgB2 envSquare store3 "c1" "1.0").1 = some "c1" := by
  have h := c8_validation_order cfgB2 envSquare "c1" "1.0" 1 (by rfl) (le_refl 1)
  refine ⟨?_, by rfl⟩
  exact h.2.2.2.2.2.2.2.2.1.mpr ⟨by rfl, ⟨1, 1, false⟩, by rfl, by decide, by rfl⟩

/-! ### Claim C10: the None minimum_image_size default -/

/-- C10: with the constructor default `minimum_image_size = None`, the size
comparison raises and the bare except absorbs it, so every candidate whose
resource exists and decodes is discarded as a warning-level failure with no
Bucket Store mutation, and no candidate is ever returned as valid. -/
theorem c10_none_minimum_rejects_all :
    ∀ (cfg : Config) (env : Env) (p : Img) (b : Key),
      cfg.minimum_image_size = none →
      (classifyImage cfg env p b ≠ .valid) ∧
      (∀ st, (process_single_image cfg env st p b).1 = none) ∧
      (env.pathExists p = true → ∀ d, env.decode p = some d →
        classifyImage cfg env p b = .errorCaught ∧
        ∀ st, (process_single_image cfg env st p b).2 = st) := by
  intro cfg env p b hmin
  have hcl : ∀ d, env.pathExists p = true → env.decode p = some d →
      classifyImage cfg env p b = .errorCaught := by
    intro d hex hdec; simp [classifyImage, hex, hdec, hmin]
  have hnv : classifyImage cfg env p b ≠ .valid := by
    by_cases hex : env.pathExists p
    · cases hdec : env.decode p with
      | none => simp [classifyImage, hex, hdec]
      | some d => rw [hcl d hex hdec]; exact fun h => by cases h
    · simp [classifyImage, hex]
  refine ⟨hnv, ?_, ?_⟩
  · intro st; unfold process_single_image; simp [hnv]
  · intro hex d hdec
    refine ⟨hcl d hex hdec, ?_⟩
    intro st; unfold process_single_image; simp [hcl d hex hdec, applyOutcome]

/-- Witness for `c10_none_minimum_rejects_all` at a configuration with the
default `None` minimum: the decodable candidate "c1" is discarded with no
store mutation. -/
theorem c10_none_minimum_rejects_all_witness :
    classifyImage ⟨2, false, none⟩ envSquare "c1" "1.0" ≠ .valid ∧
    (process_single_image ⟨2, false, none⟩ envSquare store3 "c1" "1.0").1 = none ∧
    (process_single_image ⟨2, false, none⟩ envSquare store3 "c1" "1.0").2 = store3 := by
  have h := c10_none_minimum_rejects_all ⟨2, false, none⟩ envSquare "c1" "1.0" (by rfl)
  exact ⟨h.1, h.2.1 store3, ((h.2.2 (by rfl) ⟨1, 1, false⟩ (by rfl)).2 store3)⟩

end SimpleTuner
